import Mathlib

/-!
Verification of the csvplus field-mapping and value-conversion engine.

The Go source is shallowly embedded:
  * `getFieldInfo` (structinfo.go): header-based and positional resolution of
    struct fields to CSV column indices, including the duplicate-column-name
    ("collision") exclusion pass.  Go iterates the `fieldCounts` map in an
    unspecified order, so the embedding takes the iteration order of that final
    loop as an explicit `order` argument; theorems either quantify over it or
    hypothesise that it enumerates the map's keys (which is exactly what Go
    guarantees, and nothing more).
  * `Decoder.unmarshalRecord` (csvplus.go): per-row decoding over a binding
    list, including the column-count guard, the `Unmarshaler`-hook branches,
    the empty-cell skip, pointer allocation, and the builtin scalar rules with
    their explicit overflow checks.
  * `Encoder.Encode`'s per-record loop together with `encRegister.Register`
    (csvplus.go / structinfo.go): the encode-side field table and the builtin
    scalar rendering rules.
  * `newUnmarshalError` / `UnmarhsalError.Error` and `github.com/pkg/errors`
    `Wrapf` (which returns nil when the wrapped error is nil).

Machine integers are modelled as `Int`/`Nat` with the exact range checks the
code performs (`strconv.ParseInt`/`ParseUint` at bit size 64 followed by
`reflect.Value.OverflowInt`/`OverflowUint` at the field's width).  `time.Time`
fields and float fields are outside the model: floating point has no faithful
shallow embedding here, and no claim needs times.  Custom `Unmarshaler` /
`Marshaler` hook types are modelled by a field kind carrying the hook's zero
value and its two conversion functions.
-/

deriving instance DecidableEq for Except

namespace Csvplus

/-- A CSV cell parse / conversion error message (the `error` payloads of the
Go standard library calls the decoder makes). -/
abbrev ErrMsg := String

/-- Model of `github.com/pkg/errors.Wrapf`: wrapping a nil error yields nil,
otherwise the message is prefixed to the cause. -/
def errorsWrapf (err : Option ErrMsg) (context : String) : Option ErrMsg :=
  err.map (fun e => context ++ ": " ++ e)

/-- Decimal digit character for a value below ten, as produced by
`strconv.Itoa` / `FormatInt`. -/
def digitChar (n : Nat) : Char := Char.ofNat (48 + n)

/-- Reference recursion for the decimal digit list, most significant digit
first; used only inside proofs. -/
def natDigitsRec (n : Nat) : List Char :=
  if _h : n < 10 then [digitChar n]
  else natDigitsRec (n / 10) ++ [digitChar (n % 10)]
  termination_by n
  decreasing_by exact Nat.div_lt_self (by omega) (by omega)

/-- Fuel-driven digit accumulator (the loop of `strconv.formatBits`); the
fuel only bounds the iteration count, `natDigits` always supplies enough. -/
def natDigitsCore : Nat → Nat → List Char → List Char
  | 0, _, acc => acc
  | fuel + 1, n, acc =>
    if n < 10 then digitChar n :: acc
    else natDigitsCore fuel (n / 10) (digitChar (n % 10) :: acc)

/-- The decimal digit list of a natural number, most significant first
(the digits `strconv` emits). -/
def natDigits (n : Nat) : List Char := natDigitsCore (n + 1) n []

theorem natDigitsCore_eq (fuel n : Nat) (acc : List Char) (h : n < fuel) :
    natDigitsCore fuel n acc = natDigitsRec n ++ acc := by
  induction fuel generalizing n acc with
  | zero => omega
  | succ fuel ih =>
    unfold natDigitsCore
    rw [natDigitsRec]
    by_cases h10 : n < 10
    · rw [if_pos h10, dif_pos h10]
      rfl
    · rw [if_neg h10, dif_neg h10, ih (n / 10) _ (by omega)]
      rw [List.append_assoc]
      rfl

theorem natDigits_eq_rec (n : Nat) : natDigits n = natDigitsRec n := by
  unfold natDigits
  rw [natDigitsCore_eq (n + 1) n [] (by omega), List.append_nil]

/-- Model of `strconv.Itoa` / `strconv.FormatInt(i, 10)`. -/
def formatInt (i : Int) : String :=
  if i < 0 then String.mk ('-' :: natDigits i.natAbs)
  else String.mk (natDigits i.natAbs)

/-- True for an ASCII decimal digit character. -/
def isDigitChar (c : Char) : Bool := 48 ≤ c.toNat && c.toNat ≤ 57

/-- Numeric value of a digit character. -/
def charVal (c : Char) : Nat := c.toNat - 48

/-- Value of a most-significant-first digit list. -/
def digitsVal (cs : List Char) : Nat := cs.foldl (fun a c => a * 10 + charVal c) 0

/-- Model of `strconv.ParseUint(s, 10, 64)`: no sign is permitted, the text
must be one or more decimal digits, and the value must fit in 64 bits. -/
def parseUint64 (s : String) : Except ErrMsg Nat :=
  match s.data with
  | [] => .error ("strconv.ParseUint: parsing " ++ s ++ ": invalid syntax")
  | cs =>
    if cs.all isDigitChar then
      if digitsVal cs < 2 ^ 64 then .ok (digitsVal cs)
      else .error ("strconv.ParseUint: parsing " ++ s ++ ": value out of range")
    else .error ("strconv.ParseUint: parsing " ++ s ++ ": invalid syntax")

/-- The digit part of `strconv.ParseInt` after the optional sign has been
stripped: one or more decimal digits, the signed value within the 64-bit
range (`s` is the full original text, used in error messages). -/
def parseIntDigits (s : String) (cs : List Char) (neg : Bool) : Except ErrMsg Int :=
  match cs with
  | [] => .error ("strconv.ParseInt: parsing " ++ s ++ ": invalid syntax")
  | _ =>
    if cs.all isDigitChar then
      if -(2 ^ 63) ≤ (if neg then -(digitsVal cs : Int) else (digitsVal cs : Int)) ∧
          (if neg then -(digitsVal cs : Int) else (digitsVal cs : Int)) < 2 ^ 63 then
        .ok (if neg then -(digitsVal cs : Int) else (digitsVal cs : Int))
      else .error ("strconv.ParseInt: parsing " ++ s ++ ": value out of range")
    else .error ("strconv.ParseInt: parsing " ++ s ++ ": invalid syntax")

/-- Model of `strconv.ParseInt(s, 10, 64)`: an optional leading sign followed
by decimal digits, the value within the signed 64-bit range. -/
def parseInt64 (s : String) : Except ErrMsg Int :=
  match s.data with
  | [] => parseIntDigits s [] false
  | c :: rest =>
    if c = '-' then parseIntDigits s rest true
    else if c = '+' then parseIntDigits s rest false
    else parseIntDigits s (c :: rest) false

/-- Model of `strconv.ParseBool`: exactly Go's accepted literal set. -/
def parseBool (s : String) : Except ErrMsg Bool :=
  if s = "1" ∨ s = "t" ∨ s = "T" ∨ s = "TRUE" ∨ s = "true" ∨ s = "True" then .ok true
  else if s = "0" ∨ s = "f" ∨ s = "F" ∨ s = "FALSE" ∨ s = "false" ∨ s = "False" then .ok false
  else .error ("strconv.ParseBool: parsing " ++ s ++ ": invalid syntax")

/-- Model of `strconv.FormatBool`. -/
def formatBool (b : Bool) : String := if b then "true" else "false"

/-- The signed 64-bit reinterpretation `int(u)` the encoder applies to an
unsigned field value before calling `strconv.Itoa`. -/
def uintAsInt64 (n : Nat) : Int :=
  if n < 2 ^ 63 then (n : Int) else (n : Int) - 2 ^ 64

/-- A Go value as the decoder/encoder manipulate it through `reflect`:
strings, signed and unsigned integers, booleans, and pointers (`vnil` is a
nil pointer, `vptr` an allocated one). -/
inductive GoVal where
  | vstr (s : String)
  | vint (n : Int)
  | vuint (n : Nat)
  | vbool (b : Bool)
  | vnil
  | vptr (v : GoVal)
deriving DecidableEq, Repr

/-- The declared kind of a struct field.  `int`/`uint` carry the bit width W
(`reflect.Value.OverflowInt`/`OverflowUint` check against W).  `hook` is a
field type implementing the `Unmarshaler`/`Marshaler` interfaces on its
pointer receiver, carrying the Go type's zero value, its `UnmarshalCSV`
parse function and its `MarshalCSV` render function.  `ptr` is a pointer
(optional) field around another kind.  `time.Time` and float fields are
outside the model. -/
inductive FieldKind where
  | str
  | int (w : Nat)
  | uint (w : Nat)
  | boolean
  | hook (zero : GoVal) (dec : String → Except ErrMsg GoVal) (enc : GoVal → Except ErrMsg String)
  | ptr (k : FieldKind)

/-- A record type's field as the registry sees it: the declared (exported)
name, the raw `csvplus` struct tag value, and the declared kind. -/
structure StructField where
  name : String
  tag : String
  kind : FieldKind

/-- fieldInfo represents a field in a struct with tags parsed and struct/csv
record indices mapped (structinfo.go). -/
structure fieldInfo where
  Name : String
  FieldIndex : Nat
  ColName : String
  ColIndex : Nat
  Format : String
  SkipField : Bool
deriving DecidableEq, Repr

/-- The Go zero value of each field kind. -/
def zeroOf : FieldKind → GoVal
  | .str => .vstr ""
  | .int _ => .vint 0
  | .uint _ => .vuint 0
  | .boolean => .vbool false
  | .hook z _ _ => z
  | .ptr _ => .vnil

/-- A record instance: the struct's field values keyed by field name, in
declaration order (the concrete `reflect.Value` the decoder writes through
`FieldByName` and the encoder reads through `Field(i)`). -/
abbrev RecordVal := List (String × GoVal)

/-- The zero (freshly `reflect.New`-allocated) record for a struct type. -/
def zeroRecord (st : List StructField) : RecordVal :=
  st.map (fun sf => (sf.name, zeroOf sf.kind))

/-- `reflect.Value.FieldByName`-style read. -/
def getF : RecordVal → String → Option GoVal
  | [], _ => none
  | p :: rest, name => if p.1 = name then some p.2 else getF rest name

/-- `reflect.Value.FieldByName`-style write (first field with the name). -/
def setF : RecordVal → String → GoVal → RecordVal
  | [], _, _ => []
  | p :: rest, name, v =>
    if p.1 = name then (p.1, v) :: rest else p :: setF rest name v

/-- Find a declared field by name (the struct-type side of `FieldByName`). -/
def findField : List StructField → String → Option StructField
  | [], _ => none
  | sf :: rest, name => if sf.name = name then some sf else findField rest name

/-- The header-row map `headersMap[header] = i` built by `getFieldInfo`; a
later duplicate header overwrites an earlier one, exactly as repeated Go map
assignment does. -/
def headersMapFrom : List String → Nat → String → Option Nat
  | [], _, _ => none
  | h :: rest, i, s =>
    match headersMapFrom rest (i + 1) s with
    | some j => some j
    | none => if s = h then some i else none

/-- The name→index map of a header row. -/
def headersMap (header : List String) : String → Option Nat :=
  headersMapFrom header 0

/-- First character lower-cased, as `getFieldInfo` retries a field name
(`utf8.DecodeRuneInString` + `unicode.ToLower`; ASCII suffices here). -/
def lowerFirst (s : String) : String :=
  match s.data with
  | [] => s
  | c :: cs => String.mk (c.toLower :: cs)

/-- One iteration of the field loop of `getFieldInfo` (structinfo.go): given
the header map, the mode, the field's declaration index `i` and the number of
already-skipped (`csvplus:"-"`) fields, produce the `fieldInfo` the loop
records, or `none` on the loop's `continue` paths (field left unbound).
`Format` stays `""`: the model has no `time.Time` kinds, and `getTimeFormat`
returns the empty string for every other type. -/
def resolveOne (hm : String → Option Nat) (withoutHeader : Bool) (i skipCount : Nat)
    (sf : StructField) : Option fieldInfo :=
  let fi : fieldInfo :=
    { Name := sf.name, FieldIndex := i, ColName := "", ColIndex := 0,
      Format := "", SkipField := false }
  if sf.tag = "" then
    match hm sf.name with
    | some colIndex =>
      some { fi with ColName := if withoutHeader then formatInt (i : Int) else sf.name,
                     ColIndex := colIndex }
    | none =>
      match hm (lowerFirst sf.name) with
      | some colIndex =>
        some { fi with ColName := lowerFirst sf.name, ColIndex := colIndex }
      | none =>
        if withoutHeader then
          some { fi with ColName := formatInt (i : Int), ColIndex := i - skipCount }
        else none
  else if sf.tag = "-" then
    some { fi with SkipField := true, ColName := "-" }
  else
    match hm sf.tag with
    | some colIndex => some { fi with ColName := sf.tag, ColIndex := colIndex }
    | none => none

/-- The field loop of `getFieldInfo`: the sequence of
`(fieldCounts` key, `ColNameToFieldInfo` entry`)` recordings, in field order,
threading the declaration index and the skip count. -/
def resolveAll (hm : String → Option Nat) (withoutHeader : Bool) :
    List StructField → Nat → Nat → List (String × fieldInfo)
  | [], _, _ => []
  | sf :: rest, i, skipCount =>
    match resolveOne hm withoutHeader i skipCount sf with
    | some fi =>
      (fi.ColName, fi) ::
        resolveAll hm withoutHeader rest (i + 1) (skipCount + (if sf.tag = "-" then 1 else 0))
    | none => resolveAll hm withoutHeader rest (i + 1) (skipCount + (if sf.tag = "-" then 1 else 0))

/-- Final value of `fieldCounts[c]`: how many fields resolved to column
name `c`. -/
def countOf (resolved : List (String × fieldInfo)) (c : String) : Nat :=
  (resolved.filter (fun p => p.1 = c)).length

/-- Final value of `ColNameToFieldInfo[c]`: the last recorded entry wins,
as repeated Go map assignment does. -/
def lastResolved (resolved : List (String × fieldInfo)) (c : String) : Option fieldInfo :=
  (resolved.reverse.find? (fun p => p.1 = c)).map (fun p => p.2)

/-- `getFieldInfo` (structinfo.go): resolve a struct type against a header
row (or, without a header row, against the first data record) and drop every
column name claimed by more than one field.  The final Go loop ranges over
the `fieldCounts` map in an unspecified order; `order` is that iteration
order, and theorems assume only that it enumerates the map's keys. -/
def getFieldInfo (st : List StructField) (withoutHeader : Bool) (header : List String)
    (order : List String) : List fieldInfo :=
  let hm := headersMap header
  let resolved := resolveAll hm withoutHeader st 0 0
  order.filterMap (fun c =>
    match countOf resolved c with
    | 0 => none
    | 1 => lastResolved resolved c
    | _ => none)

/-- `order` is a legal iteration order of the `fieldCounts` map built from
`resolved`: each key exactly once. -/
def IsKeyOrder (resolved : List (String × fieldInfo)) (order : List String) : Prop :=
  order.Nodup ∧ ∀ c, c ∈ order ↔ 0 < countOf resolved c

/-- UnmarhsalError (csvplus.go) [sic]: the structured decode error. -/
structure UnmarhsalError where
  Column : String
  Row : Nat
  Value : String
  RawErr : Option ErrMsg
deriving DecidableEq, Repr

/-- `newUnmarshalError` (csvplus.go): when no column name is available the
positional placeholder `col idx %d` is used. -/
def newUnmarshalError (colName : String) (colIndex row : Nat) (value : String)
    (err : Option ErrMsg) : UnmarhsalError :=
  { Column := if colName = "" then "col idx " ++ formatInt (colIndex : Int) else colName
    Row := row
    Value := value
    RawErr := err }

/-- `UnmarhsalError.Error()` calls `um.RawErr.Error()`; when `RawErr` is nil
that call dereferences a nil interface and panics, modelled as `none`. -/
def UnmarhsalError.errorText (um : UnmarhsalError) : Option String :=
  um.RawErr.map (fun r =>
    "col: " ++ um.Column ++ ", row: " ++ formatInt (um.Row : Int) ++
      ", val: " ++ um.Value ++ ", err: " ++ r)

/-- The error outcomes of `Decoder.unmarshalRecord`: the row-shape guard
`errors.Errorf("not enough columns in csv data (row %d)", row)`, a structured
`UnmarhsalError`, or the `reflect` panic a `FieldByName` miss would cause
(unreachable for registry-produced bindings). -/
inductive DecodeError where
  | notEnoughColumns (row : Nat)
  | unmarshal (e : UnmarhsalError)
  | noSuchField (name : String)
deriving DecidableEq, Repr

/-- The builtin scalar dispatch of `Decoder.unmarshalRecord` (the `switch
f.Kind()` after pointer dereference): parse at bit size 64, then the explicit
`OverflowInt`/`OverflowUint` width check.  A pointer or hook kind reaching
this switch is Go's `default` branch: an unsupported-type error (a `fmt.Errorf`
cause, so `RawErr` is non-nil there). -/
def scalarDecode (row : Nat) (fi : fieldInfo) (recVal : String) :
    FieldKind → Except DecodeError GoVal
  | .str => .ok (.vstr recVal)
  | .int w =>
    match parseInt64 recVal with
    | .error e =>
      .error (.unmarshal (newUnmarshalError fi.ColName fi.ColIndex row recVal
        (errorsWrapf (some e) "strconv.ParseInt")))
    | .ok n =>
      if n < -(2 ^ (w - 1)) ∨ 2 ^ (w - 1) ≤ n then
        .error (.unmarshal (newUnmarshalError fi.ColName fi.ColIndex row recVal
          (errorsWrapf none "strconv.ParseInt")))
      else .ok (.vint n)
  | .uint w =>
    match parseUint64 recVal with
    | .error e =>
      .error (.unmarshal (newUnmarshalError fi.ColName fi.ColIndex row recVal
        (errorsWrapf (some e) "strconv.ParseUint")))
    | .ok n =>
      if 2 ^ w ≤ n then
        .error (.unmarshal (newUnmarshalError fi.ColName fi.ColIndex row recVal
          (errorsWrapf none "strconv.ParseUint")))
      else .ok (.vuint n)
  | .boolean =>
    match parseBool recVal with
    | .error e =>
      .error (.unmarshal (newUnmarshalError fi.ColName fi.ColIndex row recVal
        (errorsWrapf (some e) "strconv.ParseBool")))
    | .ok b => .ok (.vbool b)
  | .hook _ _ _ =>
    .error (.unmarshal (newUnmarshalError fi.ColName fi.ColIndex row recVal
      (some "unsupported type")))
  | .ptr _ =>
    .error (.unmarshal (newUnmarshalError fi.ColName fi.ColIndex row recVal
      (some "unsupported type")))

/-- One bound field of `Decoder.unmarshalRecord` (csvplus.go), after the
column-count guard: first the two `Unmarshaler` branches (a `*T` field whose
`*T` implements the interface, then a `T` field whose `*T` does), then the
empty-cell skip (`.ok none` = the field is not written), then pointer
allocation and the builtin scalar switch.  Note the source checks the hook
branches before the empty-cell skip, so a hook field receives the raw cell
even when it is empty. -/
def convertField (row : Nat) (fi : fieldInfo) (recVal : String) :
    FieldKind → Except DecodeError (Option GoVal)
  | .ptr (.hook _ dec _) =>
    match dec recVal with
    | .error e =>
      .error (.unmarshal (newUnmarshalError fi.ColName fi.ColIndex row recVal
        (errorsWrapf (some e) (fi.Name ++ ".UnmarshalCSV()"))))
    | .ok v => .ok (some (.vptr v))
  | .hook _ dec _ =>
    match dec recVal with
    | .error e =>
      .error (.unmarshal (newUnmarshalError fi.ColName fi.ColIndex row recVal
        (errorsWrapf (some e) (fi.Name ++ ".UnmarshalCSV()"))))
    | .ok v => .ok (some v)
  | k =>
    if recVal = "" then .ok none
    else
      match k with
      | .ptr k2 => (scalarDecode row fi recVal k2).map (fun v => some (.vptr v))
      | _ => (scalarDecode row fi recVal k).map some

/-- One iteration of the binding loop of `Decoder.unmarshalRecord`: a skipped
or unbound binding is passed over; `(len(record) - 1) < fi.ColIndex`
(equivalently `record.length ≤ fi.ColIndex`) aborts with the row-shape error;
otherwise the cell is converted and, when a value is produced, written
through `FieldByName`. -/
def unmarshalStep (st : List StructField) (row : Nat) (record : List String)
    (fi : fieldInfo) (v : RecordVal) : Except DecodeError RecordVal :=
  if fi.SkipField = true ∨ fi.ColName = "" then .ok v
  else if record.length ≤ fi.ColIndex then .error (.notEnoughColumns row)
  else
    match findField st fi.Name with
    | none => .error (.noSuchField fi.Name)
    | some sf =>
      match convertField row fi (record.getD fi.ColIndex "") sf.kind with
      | .error e => .error e
      | .ok none => .ok v
      | .ok (some newV) => .ok (setF v fi.Name newV)

/-- The binding loop of `Decoder.unmarshalRecord`: iterate `unmarshalStep`,
stopping at the first error. -/
def unmarshalFields (st : List StructField) (row : Nat) (record : List String) :
    List fieldInfo → RecordVal → Except DecodeError RecordVal
  | [], v => .ok v
  | fi :: rest, v =>
    match unmarshalStep st row record fi v with
    | .ok v2 => unmarshalFields st row record rest v2
    | .error e => .error e

/-- `Decoder.unmarshalRecord` on a freshly allocated zero record. -/
def unmarshalRecord (st : List StructField) (row : Nat) (record : List String)
    (fis : List fieldInfo) : Except DecodeError RecordVal :=
  unmarshalFields st row record fis (zeroRecord st)

/-- The encode-side column name `encRegister.Register` stores: the raw tag,
or the field name when the tag is empty. -/
def encHeaderName (sf : StructField) : String :=
  if sf.tag = "" then sf.name else sf.tag

/-- `encRegister.Register` (structinfo.go): every field whose tag is not the
skip marker, with its struct field index, in declaration order (these are
`si.fieldIndices` paired with the fields they index). -/
def encRegFields (st : List StructField) : List (Nat × StructField) :=
  st.enum.filter (fun p => p.2.tag ≠ "-")

/-- `encRegister.GetEncodeHeaders`: the header row the encoder writes. -/
def encodeHeaders (st : List StructField) : List String :=
  (encRegFields st).map (fun p => encHeaderName p.2)

/-- The builtin scalar rendering of `Encoder.Encode`: strings verbatim,
integers via `strconv.Itoa(int(..))` (note the unsigned value passes through
a signed conversion), booleans via `strconv.FormatBool`.  The catch-all is
unreachable for well-typed records. -/
def encodeScalar : FieldKind → GoVal → String
  | .str, .vstr s => s
  | .int _, .vint n => formatInt n
  | .uint _, .vuint n => formatInt (uintAsInt64 n)
  | .boolean, .vbool b => formatBool b
  | _, _ => ""

/-- One field of `Encoder.Encode`'s record loop: the `Marshaler` hook (checked
first, on the field type or its pointer type, and receiving the field value
even when it is a nil pointer), then the nil-pointer empty cell, then
dereference and the builtin scalar switch.  Nested pointer kinds, which that
switch silently skips, are outside the modelled record types. -/
def encodeFieldE (sf : StructField) (v : GoVal) : Except ErrMsg String :=
  match sf.kind with
  | .ptr (.hook _ _ enc) => enc v
  | .hook _ _ enc => enc v
  | .ptr k =>
    match v with
    | .vnil => .ok ""
    | .vptr v2 => .ok (encodeScalar k v2)
    | _ => .ok (encodeScalar k v)
  | k => .ok (encodeScalar k v)

/-- The field loop of `Encoder.Encode` over the registered encode fields,
reading the record by struct field index. -/
def encodeFieldsList (v : RecordVal) : List (Nat × StructField) → Except ErrMsg (List String)
  | [] => .ok []
  | (i, sf) :: rest =>
    match encodeFieldE sf (v.getD i ("", GoVal.vnil)).2 with
    | .error e => .error e
    | .ok cell => (encodeFieldsList v rest).map (fun r => cell :: r)

/-- One data row of `Encoder.Encode` for one record value. -/
def encodeRecord (st : List StructField) (v : RecordVal) : Except ErrMsg (List String) :=
  encodeFieldsList v (encRegFields st)

/-! ### Decimal printing and parsing round-trip -/

theorem natDigitsRec_ne_nil (n : Nat) : natDigitsRec n ≠ [] := by
  rw [natDigitsRec]
  split
  · simp
  · simp

theorem natDigits_ne_nil (n : Nat) : natDigits n ≠ [] := by
  rw [natDigits_eq_rec]
  exact natDigitsRec_ne_nil n

theorem charVal_digitChar (n : Nat) (h : n < 10) : charVal (digitChar n) = n := by
  interval_cases n <;> decide

theorem isDigitChar_digitChar (n : Nat) (h : n < 10) : isDigitChar (digitChar n) = true := by
  interval_cases n <;> decide

theorem mem_natDigitsRec_isDigit (n : Nat) (c : Char) (hc : c ∈ natDigitsRec n) :
    isDigitChar c = true := by
  induction n using Nat.strong_induction_on with
  | _ n ih =>
    rw [natDigitsRec] at hc
    split at hc
    · rcases List.mem_singleton.mp hc with rfl
      exact isDigitChar_digitChar n (by omega)
    · rcases List.mem_append.mp hc with h1 | h2
      · exact ih (n / 10) (Nat.div_lt_self (by omega) (by omega)) h1
      · rcases List.mem_singleton.mp h2 with rfl
        exact isDigitChar_digitChar _ (Nat.mod_lt _ (by omega))

theorem mem_natDigits_isDigit (n : Nat) (c : Char) (hc : c ∈ natDigits n) :
    isDigitChar c = true := by
  rw [natDigits_eq_rec] at hc
  exact mem_natDigitsRec_isDigit n c hc

theorem digitsVal_append_single (ds : List Char) (c : Char) :
    digitsVal (ds ++ [c]) = 10 * digitsVal ds + charVal c := by
  simp only [digitsVal, List.foldl_append, List.foldl_cons, List.foldl_nil]
  omega

theorem digitsVal_natDigitsRec (n : Nat) : digitsVal (natDigitsRec n) = n := by
  induction n using Nat.strong_induction_on with
  | _ n ih =>
    rw [natDigitsRec]
    split
    · simp only [digitsVal, List.foldl_cons, List.foldl_nil]
      rw [charVal_digitChar n (by omega)]
      omega
    · rw [digitsVal_append_single,
        ih (n / 10) (Nat.div_lt_self (by omega) (by omega)),
        charVal_digitChar _ (Nat.mod_lt _ (by omega))]
      omega

theorem digitsVal_natDigits (n : Nat) : digitsVal (natDigits n) = n := by
  rw [natDigits_eq_rec]
  exact digitsVal_natDigitsRec n

theorem natDigits_injective (m n : Nat) (h : natDigits m = natDigits n) : m = n := by
  have := digitsVal_natDigits m
  rw [h, digitsVal_natDigits] at this
  omega

theorem parseUint64_natDigits (n : Nat) (h : n < 2 ^ 64) :
    parseUint64 (String.mk (natDigits n)) = .ok n := by
  have hne := natDigits_ne_nil n
  unfold parseUint64
  simp only
  match hd : natDigits n with
  | [] => exact absurd hd hne
  | c :: cs =>
    have hall : (c :: cs).all isDigitChar = true := by
      rw [List.all_eq_true]
      intro x hx
      exact mem_natDigits_isDigit n x (hd ▸ hx)
    have hval : digitsVal (c :: cs) = n := hd ▸ digitsVal_natDigits n
    simp only [hall, if_true, hval]
    rw [if_pos h]

theorem isDigitChar_ne_dash (c : Char) (h : isDigitChar c = true) : c ≠ '-' := by
  intro hc
  subst hc
  simp [isDigitChar] at h

theorem isDigitChar_ne_plus (c : Char) (h : isDigitChar c = true) : c ≠ '+' := by
  intro hc
  subst hc
  simp [isDigitChar] at h

theorem formatInt_natCast (n : Nat) : formatInt (n : Int) = String.mk (natDigits n) := by
  unfold formatInt
  rw [if_neg (by omega)]
  rw [Int.natAbs_ofNat]

theorem parseIntDigits_natDigits (s : String) (n : Nat) (neg : Bool) (v : Int)
    (hv : v = if neg then -(n : Int) else (n : Int))
    (h1 : -(2 ^ 63) ≤ v) (h2 : v < 2 ^ 63) :
    parseIntDigits s (natDigits n) neg = .ok v := by
  match hd : natDigits n with
  | [] => exact absurd hd (natDigits_ne_nil _)
  | c :: cs =>
    have hall : (c :: cs).all isDigitChar = true := by
      rw [List.all_eq_true]
      intro x hx
      exact mem_natDigits_isDigit _ x (hd ▸ hx)
    have hval : digitsVal (c :: cs) = n := hd ▸ digitsVal_natDigits _
    unfold parseIntDigits
    simp only [hall, if_true, hval, ← hv]
    rw [if_pos ⟨h1, h2⟩]

theorem parseInt64_formatInt (i : Int) (h1 : -(2 ^ 63) ≤ i) (h2 : i < 2 ^ 63) :
    parseInt64 (formatInt i) = .ok i := by
  by_cases hneg : i < 0
  · have hfi : formatInt i = String.mk ('-' :: natDigits i.natAbs) := by
      unfold formatInt
      rw [if_pos hneg]
    rw [hfi]
    unfold parseInt64
    simp only [if_pos rfl]
    exact parseIntDigits_natDigits _ _ true i (by rw [if_pos rfl]; omega) h1 h2
  · have hfi : formatInt i = String.mk (natDigits i.natAbs) := by
      unfold formatInt
      rw [if_neg hneg]
    rw [hfi]
    match hd : natDigits i.natAbs with
    | [] => exact absurd hd (natDigits_ne_nil _)
    | c :: cs =>
      have hcd : isDigitChar c = true :=
        mem_natDigits_isDigit _ c (hd ▸ List.mem_cons_self _ _)
      unfold parseInt64
      simp only
      rw [if_neg (isDigitChar_ne_dash c hcd), if_neg (isDigitChar_ne_plus c hcd), ← hd]
      exact parseIntDigits_natDigits _ _ false i (by rw [if_neg Bool.false_ne_true]; omega) h1 h2

theorem uintAsInt64_of_lt (n : Nat) (h : n < 2 ^ 63) : uintAsInt64 n = (n : Int) := by
  unfold uintAsInt64
  rw [if_pos h]

theorem parseBool_formatBool (b : Bool) : parseBool (formatBool b) = .ok b := by
  cases b <;> decide

theorem formatInt_ne_empty (i : Int) : formatInt i ≠ "" := by
  unfold formatInt
  split
  · intro h
    exact absurd (congrArg String.data h) (by simp)
  · intro h
    have := congrArg String.data h
    simp only at this
    exact natDigits_ne_nil _ this

theorem formatInt_nat_injective (m n : Nat)
    (h : formatInt (m : Int) = formatInt (n : Int)) : m = n := by
  rw [formatInt_natCast, formatInt_natCast] at h
  exact natDigits_injective m n (congrArg String.data h)

theorem formatInt_nat_ne_skipMark (n : Nat) : formatInt (n : Int) ≠ "-" := by
  rw [formatInt_natCast]
  intro h
  have hd := congrArg String.data h
  simp only at hd
  have : ('-' : Char) ∈ natDigits n := by
    rw [hd]
    exact List.mem_singleton.mpr rfl
  exact isDigitChar_ne_dash _ (mem_natDigits_isDigit n _ this) rfl

/-! ### Record access lemmas -/

theorem getF_cons (p : String × GoVal) (rest : RecordVal) (name : String) :
    getF (p :: rest) name = if p.1 = name then some p.2 else getF rest name := rfl

theorem setF_cons (p : String × GoVal) (rest : RecordVal) (name : String) (v : GoVal) :
    setF (p :: rest) name v =
      if p.1 = name then (p.1, v) :: rest else p :: setF rest name v := rfl

theorem getF_setF_ne (v : RecordVal) (n name : String) (x : GoVal) (h : n ≠ name) :
    getF (setF v n x) name = getF v name := by
  induction v with
  | nil => rfl
  | cons p rest ih =>
    rw [setF_cons]
    by_cases hp : p.1 = n
    · rw [if_pos hp, getF_cons, getF_cons]
      simp only
      rw [if_neg (hp ▸ h), if_neg (hp ▸ h)]
    · rw [if_neg hp, getF_cons, getF_cons]
      by_cases hq : p.1 = name
      · rw [if_pos hq, if_pos hq]
      · rw [if_neg hq, if_neg hq]
        exact ih

/-! ### Decoding loop lemmas -/

theorem unmarshalFields_cons (st : List StructField) (row : Nat) (record : List String)
    (fi : fieldInfo) (rest : List fieldInfo) (v : RecordVal) :
    unmarshalFields st row record (fi :: rest) v =
      match unmarshalStep st row record fi v with
      | .ok v2 => unmarshalFields st row record rest v2
      | .error e => .error e := rfl

theorem unmarshalFields_append (st : List StructField) (row : Nat) (record : List String)
    (l1 l2 : List fieldInfo) (v : RecordVal) :
    unmarshalFields st row record (l1 ++ l2) v =
      match unmarshalFields st row record l1 v with
      | .ok v2 => unmarshalFields st row record l2 v2
      | .error e => .error e := by
  induction l1 generalizing v with
  | nil => rfl
  | cons fi rest ih =>
    rw [List.cons_append, unmarshalFields_cons, unmarshalFields_cons]
    cases unmarshalStep st row record fi v with
    | ok v2 => exact ih v2
    | error e => rfl

/-- A successful `unmarshalStep` leaves every field other than the binding's
own at its previous value. -/
theorem unmarshalStep_preserve (st : List StructField) (row : Nat) (record : List String)
    (fi : fieldInfo) (v v2 : RecordVal) (name : String)
    (hok : unmarshalStep st row record fi v = .ok v2) (hname : fi.Name ≠ name) :
    getF v2 name = getF v name := by
  unfold unmarshalStep at hok
  split at hok
  · cases hok
    rfl
  · split at hok
    · cases hok
    · split at hok
      · cases hok
      · split at hok
        · cases hok
        · cases hok
          rfl
        · cases hok
          exact getF_setF_ne v fi.Name name _ hname

theorem unmarshalFields_preserve (st : List StructField) (row : Nat) (record : List String)
    (fis : List fieldInfo) (v v2 : RecordVal) (name : String)
    (hok : unmarshalFields st row record fis v = .ok v2)
    (hni : ∀ fi ∈ fis, fi.Name ≠ name) :
    getF v2 name = getF v name := by
  induction fis generalizing v with
  | nil =>
    cases hok
    rfl
  | cons fi rest ih =>
    rw [unmarshalFields_cons] at hok
    cases hstep : unmarshalStep st row record fi v with
    | ok v3 =>
      rw [hstep] at hok
      rw [ih v3 hok (fun b hb => hni b (List.mem_cons_of_mem _ hb))]
      exact unmarshalStep_preserve st row record fi v v3 name hstep
        (hni fi (List.mem_cons_self _ _))
    | error e =>
      rw [hstep] at hok
      cases hok

/-- The `Column` every structured conversion error carries (the column name,
or the positional placeholder). -/
def columnLabel (fi : fieldInfo) : String :=
  if fi.ColName = "" then "col idx " ++ formatInt (fi.ColIndex : Int) else fi.ColName

theorem except_map_error {A B C : Type} (f : A → B) (x : Except C A) (e : C)
    (h : x.map f = .error e) : x = .error e := by
  cases x with
  | error err =>
    simp only [Except.map] at h
    cases h
    rfl
  | ok v =>
    simp only [Except.map] at h
    cases h

theorem scalarDecode_error_column (row : Nat) (fi : fieldInfo) (recVal : String)
    (k : FieldKind) (de : DecodeError)
    (herr : scalarDecode row fi recVal k = .error de) :
    ∃ e, de = .unmarshal e ∧ e.Column = columnLabel fi := by
  unfold scalarDecode at herr
  repeat' split at herr
  all_goals
    first
      | (cases herr
         exact ⟨_, rfl, rfl⟩)
      | cases herr

theorem convertField_error_column (row : Nat) (fi : fieldInfo) (recVal : String)
    (k : FieldKind) (de : DecodeError)
    (herr : convertField row fi recVal k = .error de) :
    ∃ e, de = .unmarshal e ∧ e.Column = columnLabel fi := by
  unfold convertField at herr
  repeat' split at herr
  all_goals
    first
      | (cases herr
         exact ⟨_, rfl, rfl⟩)
      | cases herr
      | exact scalarDecode_error_column row fi recVal _ de (except_map_error _ _ de herr)

theorem unmarshalStep_error_unmarshal (st : List StructField) (row : Nat)
    (record : List String) (fi : fieldInfo) (v : RecordVal) (e : UnmarhsalError)
    (herr : unmarshalStep st row record fi v = .error (.unmarshal e)) :
    fi.ColName ≠ "" ∧ e.Column = fi.ColName := by
  unfold unmarshalStep at herr
  split at herr
  · cases herr
  next h1 =>
    have hcn : fi.ColName ≠ "" := fun hc => h1 (Or.inr hc)
    split at herr
    · cases herr
    · split at herr
      · cases herr
      next sf hff =>
        split at herr
        next de hcv =>
          cases herr
          rcases convertField_error_column row fi _ sf.kind _ hcv with ⟨e2, he2, hcol⟩
          cases he2
          refine ⟨hcn, ?_⟩
          rw [hcol]
          unfold columnLabel
          rw [if_neg hcn]
        · cases herr
        · cases herr

theorem unmarshalFields_error_column (st : List StructField) (row : Nat)
    (record : List String) (fis : List fieldInfo) (v : RecordVal) (e : UnmarhsalError)
    (herr : unmarshalFields st row record fis v = .error (.unmarshal e)) :
    ∃ fi ∈ fis, fi.ColName ≠ "" ∧ e.Column = fi.ColName := by
  induction fis generalizing v with
  | nil => cases herr
  | cons fi rest ih =>
    rw [unmarshalFields_cons] at herr
    cases hstep : unmarshalStep st row record fi v with
    | ok v2 =>
      rw [hstep] at herr
      rcases ih v2 herr with ⟨b, hb, hbc⟩
      exact ⟨b, List.mem_cons_of_mem _ hb, hbc⟩
    | error de =>
      rw [hstep] at herr
      cases herr
      rcases unmarshalStep_error_unmarshal st row record fi v e hstep with ⟨h1, h2⟩
      exact ⟨fi, List.mem_cons_self _ _, h1, h2⟩

/-! ### Resolution lemmas -/

theorem resolveAll_cons (hm : String → Option Nat) (w : Bool) (sf : StructField)
    (rest : List StructField) (i sk : Nat) :
    resolveAll hm w (sf :: rest) i sk =
      match resolveOne hm w i sk sf with
      | some fi =>
        (fi.ColName, fi) :: resolveAll hm w rest (i + 1) (sk + (if sf.tag = "-" then 1 else 0))
      | none => resolveAll hm w rest (i + 1) (sk + (if sf.tag = "-" then 1 else 0)) := rfl

/-- In header mode the skip count is never consulted. -/
theorem resolveOne_false_skipCount (hm : String → Option Nat) (i sk : Nat) (sf : StructField) :
    resolveOne hm false i sk sf = resolveOne hm false i 0 sf := by
  unfold resolveOne
  simp

theorem resolveOne_spec (hm : String → Option Nat) (w : Bool) (i sk : Nat)
    (sf : StructField) (fi : fieldInfo) (h : resolveOne hm w i sk sf = some fi) :
    fi.FieldIndex = i ∧ fi.Name = sf.name := by
  unfold resolveOne at h
  repeat' split at h
  all_goals
    first
      | (cases h
         exact ⟨rfl, rfl⟩)
      | cases h

theorem mem_resolveAll_fst (hm : String → Option Nat) (w : Bool) (st : List StructField)
    (i0 sk : Nat) (p : String × fieldInfo) (hp : p ∈ resolveAll hm w st i0 sk) :
    p.1 = p.2.ColName := by
  induction st generalizing i0 sk with
  | nil => cases hp
  | cons sf rest ih =>
    rw [resolveAll_cons] at hp
    cases hr : resolveOne hm w i0 sk sf with
    | some fi =>
      rw [hr] at hp
      rcases List.mem_cons.mp hp with rfl | hp2
      · rfl
      · exact ih _ _ hp2
    | none =>
      rw [hr] at hp
      exact ih _ _ hp

theorem mem_resolveAll_false (hm : String → Option Nat) (st : List StructField)
    (i0 sk : Nat) (p : String × fieldInfo) :
    p ∈ resolveAll hm false st i0 sk ↔
      ∃ j sf, st.get? j = some sf ∧ resolveOne hm false (i0 + j) 0 sf = some p.2 ∧
        p.1 = p.2.ColName := by
  induction st generalizing i0 sk with
  | nil =>
    simp only [resolveAll, List.not_mem_nil, false_iff]
    rintro ⟨j, sf, hj, _⟩
    cases hj
  | cons sf rest ih =>
    rw [resolveAll_cons]
    cases hr : resolveOne hm false i0 sk sf with
    | some fi =>
      rw [List.mem_cons]
      constructor
      · rintro (rfl | hp)
        · refine ⟨0, sf, rfl, ?_, rfl⟩
          rw [Nat.add_zero, ← resolveOne_false_skipCount hm i0 sk sf]
          exact hr
        · rcases (ih (i0 + 1) _).mp hp with ⟨j, sf2, hj, hone, hcol⟩
          refine ⟨j + 1, sf2, hj, ?_, hcol⟩
          have harith : i0 + (j + 1) = i0 + 1 + j := by omega
          rw [harith]
          exact hone
      · rintro ⟨j, sf2, hj, hone, hcol⟩
        cases j with
        | zero =>
          cases hj
          rw [Nat.add_zero, ← resolveOne_false_skipCount hm i0 sk sf, hr] at hone
          cases hone
          left
          rw [Prod.ext_iff]
          exact ⟨hcol, rfl⟩
        | succ j =>
          right
          refine (ih (i0 + 1) _).mpr ⟨j, sf2, hj, ?_, hcol⟩
          have harith : i0 + 1 + j = i0 + (j + 1) := by omega
          rw [harith]
          exact hone
    | none =>
      constructor
      · intro hp
        rcases (ih (i0 + 1) _).mp hp with ⟨j, sf2, hj, hone, hcol⟩
        refine ⟨j + 1, sf2, hj, ?_, hcol⟩
        have harith : i0 + (j + 1) = i0 + 1 + j := by omega
        rw [harith]
        exact hone
      · rintro ⟨j, sf2, hj, hone, hcol⟩
        cases j with
        | zero =>
          cases hj
          rw [Nat.add_zero, ← resolveOne_false_skipCount hm i0 sk sf, hr] at hone
          cases hone
        | succ j =>
          refine (ih (i0 + 1) _).mpr ⟨j, sf2, hj, ?_, hcol⟩
          have harith : i0 + 1 + j = i0 + (j + 1) := by omega
          rw [harith]
          exact hone

theorem countOf_pos_of_mem (r : List (String × fieldInfo)) (c : String)
    (p : String × fieldInfo) (hp : p ∈ r) (hpc : p.1 = c) : 0 < countOf r c := by
  unfold countOf
  rw [List.length_pos]
  intro hnil
  have : p ∈ r.filter (fun z => z.1 = c) := List.mem_filter.mpr ⟨hp, by simp [hpc]⟩
  rw [hnil] at this
  cases this

theorem countOf_eq_one_unique (r : List (String × fieldInfo)) (c : String)
    (p q : String × fieldInfo) (h : countOf r c = 1) (hp : p ∈ r) (hq : q ∈ r)
    (hpc : p.1 = c) (hqc : q.1 = c) : p = q := by
  unfold countOf at h
  rcases List.length_eq_one.mp h with ⟨x, hx⟩
  have hpf : p ∈ r.filter (fun z => z.1 = c) := List.mem_filter.mpr ⟨hp, by simp [hpc]⟩
  have hqf : q ∈ r.filter (fun z => z.1 = c) := List.mem_filter.mpr ⟨hq, by simp [hqc]⟩
  rw [hx] at hpf hqf
  rw [List.mem_singleton.mp hpf, List.mem_singleton.mp hqf]

theorem lastResolved_mem (r : List (String × fieldInfo)) (c : String) (fi : fieldInfo)
    (h : lastResolved r c = some fi) : (c, fi) ∈ r := by
  unfold lastResolved at h
  cases hf : r.reverse.find? (fun p => p.1 = c) with
  | none =>
    rw [hf] at h
    cases h
  | some a =>
    rw [hf] at h
    cases h
    have ha1 : a.1 = c := by
      have := List.find?_some hf
      simpa using this
    have hamem : a ∈ r := List.mem_reverse.mp (List.mem_of_find?_eq_some hf)
    have : a = (c, a.2) := by
      rw [Prod.ext_iff]
      exact ⟨ha1, rfl⟩
    rw [← this]
    exact hamem

theorem lastResolved_eq_of_count_one (r : List (String × fieldInfo)) (c : String)
    (fi : fieldInfo) (hcnt : countOf r c = 1) (hmem : (c, fi) ∈ r) :
    lastResolved r c = some fi := by
  have hsome : (r.reverse.find? (fun p => p.1 = c)).isSome := by
    rw [List.find?_isSome]
    exact ⟨(c, fi), List.mem_reverse.mpr hmem, by simp⟩
  cases hf : r.reverse.find? (fun p => p.1 = c) with
  | none =>
    rw [hf] at hsome
    cases hsome
  | some a =>
    have ha1 : a.1 = c := by
      have := List.find?_some hf
      simpa using this
    have hamem : a ∈ r := List.mem_reverse.mp (List.mem_of_find?_eq_some hf)
    have : a = (c, fi) := countOf_eq_one_unique r c a (c, fi) hcnt hamem hmem ha1 rfl
    unfold lastResolved
    rw [hf, this]
    rfl

theorem mem_getFieldInfo (st : List StructField) (w : Bool) (header : List String)
    (order : List String) (b : fieldInfo)
    (hord : IsKeyOrder (resolveAll (headersMap header) w st 0 0) order) :
    b ∈ getFieldInfo st w header order ↔
      ((b.ColName, b) ∈ resolveAll (headersMap header) w st 0 0 ∧
        countOf (resolveAll (headersMap header) w st 0 0) b.ColName = 1) := by
  unfold getFieldInfo
  rw [List.mem_filterMap]
  constructor
  · rintro ⟨c, hc, hfc⟩
    cases hcnt : countOf (resolveAll (headersMap header) w st 0 0) c with
    | zero =>
      rw [hcnt] at hfc
      cases hfc
    | succ n =>
      cases n with
      | zero =>
        rw [hcnt] at hfc
        have hmem := lastResolved_mem _ _ _ hfc
        have hcol : c = b.ColName :=
          mem_resolveAll_fst (headersMap header) w st 0 0 (c, b) hmem
        subst hcol
        exact ⟨hmem, hcnt⟩
      | succ n =>
        rw [hcnt] at hfc
        cases hfc
  · rintro ⟨hmem, hcnt⟩
    refine ⟨b.ColName, ?_, ?_⟩
    · exact (hord.2 b.ColName).mpr (by omega)
    · rw [hcnt]
      exact lastResolved_eq_of_count_one _ _ _ hcnt hmem

/-- The concrete iteration order used by closed evaluations: the map's keys
in first-insertion order (one legal iteration order among those Go permits). -/
def keyList (r : List (String × fieldInfo)) : List String := (r.map Prod.fst).dedup

theorem exists_of_countOf_pos (r : List (String × fieldInfo)) (c : String)
    (h : 0 < countOf r c) : ∃ p ∈ r, p.1 = c := by
  unfold countOf at h
  rw [List.length_pos] at h
  rcases List.exists_mem_of_ne_nil _ h with ⟨p, hp⟩
  have := List.mem_filter.mp hp
  exact ⟨p, this.1, by simpa using this.2⟩

theorem isKeyOrder_keyList (r : List (String × fieldInfo)) : IsKeyOrder r (keyList r) := by
  refine ⟨List.nodup_dedup _, fun c => ?_⟩
  unfold keyList
  rw [List.mem_dedup, List.mem_map]
  constructor
  · rintro ⟨p, hp, rfl⟩
    exact countOf_pos_of_mem r p.1 p hp rfl
  · intro hpos
    rcases exists_of_countOf_pos r c hpos with ⟨p, hp, hpc⟩
    exact ⟨p, hp, hpc⟩

theorem countOf_cons (k : String) (fi : fieldInfo) (r : List (String × fieldInfo))
    (c : String) :
    countOf ((k, fi) :: r) c = (if k = c then 1 else 0) + countOf r c := by
  unfold countOf
  rw [List.filter_cons]
  by_cases hk : k = c
  · simp [hk]
    omega
  · simp [hk]

theorem countOf_eq_zero_iff (r : List (String × fieldInfo)) (c : String) :
    countOf r c = 0 ↔ ∀ p ∈ r, p.1 ≠ c := by
  unfold countOf
  rw [List.length_eq_zero, List.filter_eq_nil]
  constructor
  · intro h p hp
    have := h p hp
    simpa using this
  · intro h p hp
    simpa using h p hp

theorem countOf_ge_two (r : List (String × fieldInfo)) (c : String)
    (p q : String × fieldInfo) (hp : p ∈ r) (hq : q ∈ r) (hpc : p.1 = c) (hqc : q.1 = c)
    (hne : p ≠ q) : 2 ≤ countOf r c := by
  by_contra hlt
  push_neg at hlt
  interval_cases h : countOf r c
  · exact ((countOf_eq_zero_iff r c).mp h p hp) hpc
  · exact hne (countOf_eq_one_unique r c p q h hp hq hpc hqc)

theorem nodup_names_index (st : List StructField) (i j : Nat) (sfi sfj : StructField)
    (hnd : (st.map StructField.name).Nodup) (hi : st.get? i = some sfi)
    (hj : st.get? j = some sfj) (hn : sfi.name = sfj.name) : i = j := by
  have hi2 : (st.map StructField.name).get? i = some sfi.name := by
    rw [List.get?_map, hi]
    rfl
  have hj2 : (st.map StructField.name).get? j = some sfj.name := by
    rw [List.get?_map, hj]
    rfl
  have hilen : i < (st.map StructField.name).length := by
    by_contra hge
    rw [List.get?_eq_none.mpr (by omega)] at hi2
    cases hi2
  apply List.get?_inj hilen hnd
  rw [hi2, hj2, hn]

/-! ### Header map lemmas -/

theorem headersMapFrom_get (header : List String) (i0 : Nat) (s : String) (k : Nat)
    (h : headersMapFrom header i0 s = some k) :
    i0 ≤ k ∧ header.get? (k - i0) = some s := by
  induction header generalizing i0 with
  | nil => cases h
  | cons hd rest ih =>
    unfold headersMapFrom at h
    cases hr : headersMapFrom rest (i0 + 1) s with
    | some j =>
      rw [hr] at h
      cases h
      rcases ih (i0 + 1) hr with ⟨hle, hget⟩
      refine ⟨by omega, ?_⟩
      have harith : k - i0 = (k - (i0 + 1)) + 1 := by omega
      rw [harith]
      exact hget
    | none =>
      rw [hr] at h
      by_cases hs : s = hd
      · rw [if_pos hs] at h
        cases h
        refine ⟨Nat.le_refl _, ?_⟩
        rw [Nat.sub_self, hs]
        rfl
      · rw [if_neg hs] at h
        cases h

theorem headersMap_get (header : List String) (s : String) (k : Nat)
    (h : headersMap header s = some k) : header.get? k = some s := by
  have := (headersMapFrom_get header 0 s k h).2
  rw [Nat.sub_zero] at this
  exact this

theorem headersMap_isSome_of_mem (header : List String) (s : String) (hs : s ∈ header) :
    ∃ k, headersMap header s = some k := by
  unfold headersMap
  generalize 0 = i0
  induction header generalizing i0 with
  | nil => cases hs
  | cons hd rest ih =>
    unfold headersMapFrom
    cases hr : headersMapFrom rest (i0 + 1) s with
    | some j => exact ⟨j, rfl⟩
    | none =>
      rcases List.mem_cons.mp hs with rfl | hmem
      · rw [if_pos rfl]
        exact ⟨i0, rfl⟩
      · rcases ih hmem (i0 + 1) with ⟨k, hk⟩
        rw [hk] at hr
        cases hr

/-! ### Header-mode resolution under full, unambiguous naming -/

theorem resolveOne_named (hm : String → Option Nat) (i sk : Nat) (sf : StructField)
    (ci : Nat) (htag : sf.tag = "") (hfound : hm sf.name = some ci) :
    resolveOne hm false i sk sf =
      some { Name := sf.name, FieldIndex := i, ColName := sf.name, ColIndex := ci,
             Format := "", SkipField := false } := by
  unfold resolveOne
  rw [if_pos htag, hfound]
  rfl

theorem resolveAll_keys_named (hm : String → Option Nat) (st : List StructField)
    (i0 sk : Nat) (hall : ∀ sf ∈ st, sf.tag = "" ∧ ∃ ci, hm sf.name = some ci)
    (p : String × fieldInfo) (hp : p ∈ resolveAll hm false st i0 sk) :
    p.1 ∈ st.map StructField.name := by
  obtain ⟨pc, pf⟩ := p
  rcases (mem_resolveAll_false hm st i0 sk (pc, pf)).mp hp with ⟨j, sf, hj, hone, hcol⟩
  have hsf : sf ∈ st := by
    have := List.get?_mem hj
    exact this
  rcases hall sf hsf with ⟨htag, ci, hfound⟩
  rw [resolveOne_named hm (i0 + j) 0 sf ci htag hfound] at hone
  cases hone
  rw [List.mem_map]
  exact ⟨sf, hsf, hcol.symm⟩

theorem countOf_resolveAll_named (hm : String → Option Nat) (st : List StructField)
    (i0 sk : Nat) (hall : ∀ sf ∈ st, sf.tag = "" ∧ ∃ ci, hm sf.name = some ci)
    (hnd : (st.map StructField.name).Nodup) (sf : StructField) (hsf : sf ∈ st) :
    countOf (resolveAll hm false st i0 sk) sf.name = 1 := by
  induction st generalizing i0 sk with
  | nil => cases hsf
  | cons sf0 rest ih =>
    rcases hall sf0 (List.mem_cons_self _ _) with ⟨htag0, ci0, hfound0⟩
    rw [resolveAll_cons, resolveOne_named hm i0 sk sf0 ci0 htag0 hfound0]
    simp only
    rw [countOf_cons]
    have hnd2 : ((rest.map StructField.name)).Nodup := (List.nodup_cons.mp hnd).2
    have hnotin : sf0.name ∉ rest.map StructField.name := (List.nodup_cons.mp hnd).1
    have hallr : ∀ x ∈ rest, x.tag = "" ∧ ∃ ci, hm x.name = some ci :=
      fun x hx => hall x (List.mem_cons_of_mem _ hx)
    rcases List.mem_cons.mp hsf with rfl | hmem
    · rw [if_pos rfl]
      have hzero : countOf (resolveAll hm false rest (i0 + 1)
          (sk + (if sf.tag = "-" then 1 else 0))) sf.name = 0 := by
        rw [countOf_eq_zero_iff]
        intro p hp hpc
        exact hnotin (hpc ▸ resolveAll_keys_named hm rest _ _ hallr p hp)
      omega
    · have hne : sf0.name ≠ sf.name := by
        intro he
        exact hnotin (he ▸ List.mem_map.mpr ⟨sf, hmem, rfl⟩)
      rw [if_neg hne, Nat.zero_add]
      exact ih _ _ hallr hnd2 hmem

theorem length_filterMap_of_forall_some {A B : Type} (f : A → Option B) (l : List A)
    (h : ∀ a ∈ l, (f a).isSome) : (l.filterMap f).length = l.length := by
  induction l with
  | nil => rfl
  | cons a rest ih =>
    rw [List.filterMap_cons]
    cases hf : f a with
    | none =>
      have := h a (List.mem_cons_self _ _)
      rw [hf] at this
      cases this
    | some b =>
      rw [List.length_cons, ih (fun x hx => h x (List.mem_cons_of_mem _ hx))]
      rfl

theorem isKeyOrder_iff (r : List (String × fieldInfo)) (order : List String) :
    IsKeyOrder r order ↔
      (order.Nodup ∧ (∀ c ∈ order, 0 < countOf r c) ∧ ∀ p ∈ r, p.1 ∈ order) := by
  constructor
  · rintro ⟨hnd, hiff⟩
    exact ⟨hnd, fun c hc => (hiff c).mp hc,
      fun p hp => (hiff p.1).mpr (countOf_pos_of_mem r p.1 p hp rfl)⟩
  · rintro ⟨hnd, h1, h2⟩
    refine ⟨hnd, fun c => ⟨h1 c, fun hpos => ?_⟩⟩
    rcases exists_of_countOf_pos r c hpos with ⟨p, hp, hpc⟩
    exact hpc ▸ h2 p hp

/-- `(j, sf)` is listed by `enumFrom` when `sf` sits at offset `j`. -/
theorem mem_enumFrom_of_get (st : List StructField) (i0 j : Nat) (sf : StructField)
    (hj : st.get? j = some sf) : (i0 + j, sf) ∈ List.enumFrom i0 st := by
  induction st generalizing i0 j with
  | nil => cases hj
  | cons hd rest ih =>
    cases j with
    | zero =>
      cases hj
      exact List.mem_cons_self _ _
    | succ j =>
      have := ih (i0 + 1) j hj
      have harith : i0 + (j + 1) = i0 + 1 + j := by omega
      rw [harith]
      exact List.mem_cons_of_mem _ this

/-- A non-skipped field's encode-side column name appears in the header row
the encoder writes. -/
theorem encHeaderName_mem_encodeHeaders (st : List StructField) (i : Nat)
    (sf : StructField) (hi : st.get? i = some sf) (hskip : sf.tag ≠ "-") :
    encHeaderName sf ∈ encodeHeaders st := by
  unfold encodeHeaders
  rw [List.mem_map]
  refine ⟨(i, sf), ?_, rfl⟩
  unfold encRegFields
  rw [List.mem_filter]
  constructor
  · have := mem_enumFrom_of_get st 0 i sf hi
    rw [Nat.zero_add] at this
    exact this
  · simpa using hskip

/-! ### Claim C1: header-mode column-name collisions exclude every colliding
field, silently -/

/-- C1: for every record type and header row in header-based mode, if two
struct fields resolve to the same column name, then every field with that
column name is absent from the resulting binding set, no error is raised by
resolution (which is total) or caused by the collision during decoding
(decode errors only ever name a bound, non-colliding column), and decoding
leaves all colliding fields at whatever value they already had — their
type's zero value on a fresh record. -/
theorem c1_collision_excluded (st : List StructField) (header order : List String)
    (i j : Nat) (sfi sfj : StructField) (fii fij : fieldInfo) (c : String)
    (hnd : (st.map StructField.name).Nodup)
    (hi : st.get? i = some sfi) (hj : st.get? j = some sfj) (hij : i ≠ j)
    (hri : resolveOne (headersMap header) false i 0 sfi = some fii)
    (hrj : resolveOne (headersMap header) false j 0 sfj = some fij)
    (hci : fii.ColName = c) (hcj : fij.ColName = c)
    (hord : IsKeyOrder (resolveAll (headersMap header) false st 0 0) order) :
    (∀ b ∈ getFieldInfo st false header order, b.ColName ≠ c) ∧
    (∀ b ∈ getFieldInfo st false header order,
      b.Name ≠ sfi.name ∧ b.Name ≠ sfj.name) ∧
    (∀ row record v v2,
      unmarshalFields st row record (getFieldInfo st false header order) v = .ok v2 →
        getF v2 sfi.name = getF v sfi.name ∧ getF v2 sfj.name = getF v sfj.name) ∧
    (∀ row record v e,
      unmarshalFields st row record (getFieldInfo st false header order) v =
          .error (.unmarshal e) → e.Column ≠ c) := by
  have hmi : ((c : String), fii) ∈ resolveAll (headersMap header) false st 0 0 := by
    apply (mem_resolveAll_false _ st 0 0 (c, fii)).mpr
    refine ⟨i, sfi, hi, ?_, hci.symm⟩
    rw [Nat.zero_add]
    exact hri
  have hmj : ((c : String), fij) ∈ resolveAll (headersMap header) false st 0 0 := by
    apply (mem_resolveAll_false _ st 0 0 (c, fij)).mpr
    refine ⟨j, sfj, hj, ?_, hcj.symm⟩
    rw [Nat.zero_add]
    exact hrj
  have hneq : fii ≠ fij := by
    intro he
    have h1 := (resolveOne_spec _ _ _ _ _ _ hri).1
    have h2 := (resolveOne_spec _ _ _ _ _ _ hrj).1
    rw [he] at h1
    exact hij (h1.symm.trans h2)
  have hcnt : 2 ≤ countOf (resolveAll (headersMap header) false st 0 0) c :=
    countOf_ge_two _ c (c, fii) (c, fij) hmi hmj rfl rfl
      (fun he => hneq (congrArg Prod.snd he))
  have part1 : ∀ b ∈ getFieldInfo st false header order, b.ColName ≠ c := by
    intro b hb hbc
    have hchar := (mem_getFieldInfo st false header order b hord).mp hb
    rw [hbc] at hchar
    have h1 := hchar.2
    omega
  have part2 : ∀ b ∈ getFieldInfo st false header order,
      b.Name ≠ sfi.name ∧ b.Name ≠ sfj.name := by
    intro b hb
    have hbr := ((mem_getFieldInfo st false header order b hord).mp hb).1
    rcases (mem_resolveAll_false _ st 0 0 (b.ColName, b)).mp hbr with ⟨k, sf, hk, hone, _⟩
    rw [Nat.zero_add] at hone
    have hspec := resolveOne_spec _ _ _ _ _ _ hone
    constructor
    · intro hbn
      have hki : k = i :=
        nodup_names_index st k i sf sfi hnd hk hi (hspec.2.symm.trans hbn)
      subst hki
      rw [hi] at hk
      cases hk
      rw [hri] at hone
      cases hone
      exact part1 _ hb hci
    · intro hbn
      have hkj : k = j :=
        nodup_names_index st k j sf sfj hnd hk hj (hspec.2.symm.trans hbn)
      subst hkj
      rw [hj] at hk
      cases hk
      rw [hrj] at hone
      cases hone
      exact part1 _ hb hcj
  refine ⟨part1, part2, ?_, ?_⟩
  · intro row record v v2 hok
    exact ⟨unmarshalFields_preserve st row record _ v v2 sfi.name hok
        (fun b hb => (part2 b hb).1),
      unmarshalFields_preserve st row record _ v v2 sfj.name hok
        (fun b hb => (part2 b hb).2)⟩
  · intro row record v e herr heq
    rcases unmarshalFields_error_column st row record _ v e herr with ⟨b, hb, _, hcol⟩
    exact part1 b hb (hcol.symm.trans heq)

/-- The collision fixture from the repo's own test
(`First *int` and `Second *int` tagged `csvplus:"First"`). -/
def stColl : List StructField :=
  [{ name := "First", tag := "", kind := .ptr (.int 64) },
   { name := "Second", tag := "First", kind := .ptr (.int 64) }]

/-- Witness for C1 at the repo's duplicate-column-name test fixture. -/
theorem c1_witness :
    ((stColl.map StructField.name).Nodup ∧
      stColl.get? 0 = some { name := "First", tag := "", kind := .ptr (.int 64) } ∧
      resolveOne (headersMap ["First", "Second"]) false 0 0
          { name := "First", tag := "", kind := .ptr (.int 64) } =
        some { Name := "First", FieldIndex := 0, ColName := "First", ColIndex := 0,
               Format := "", SkipField := false }) ∧
    ((∀ b ∈ getFieldInfo stColl false ["First", "Second"]
        (keyList (resolveAll (headersMap ["First", "Second"]) false stColl 0 0)),
        b.ColName ≠ "First") ∧
      (∀ b ∈ getFieldInfo stColl false ["First", "Second"]
        (keyList (resolveAll (headersMap ["First", "Second"]) false stColl 0 0)),
        b.Name ≠ "First" ∧ b.Name ≠ "Second") ∧
      (∀ row record v v2,
        unmarshalFields stColl row record
            (getFieldInfo stColl false ["First", "Second"]
              (keyList (resolveAll (headersMap ["First", "Second"]) false stColl 0 0))) v =
            .ok v2 →
          getF v2 "First" = getF v "First" ∧ getF v2 "Second" = getF v "Second") ∧
      (∀ row record v e,
        unmarshalFields stColl row record
            (getFieldInfo stColl false ["First", "Second"]
              (keyList (resolveAll (headersMap ["First", "Second"]) false stColl 0 0))) v =
            .error (.unmarshal e) → e.Column ≠ "First")) :=
  ⟨⟨by decide, rfl, rfl⟩,
    c1_collision_excluded stColl ["First", "Second"] _ 0 1
      { name := "First", tag := "", kind := .ptr (.int 64) }
      { name := "Second", tag := "First", kind := .ptr (.int 64) }
      { Name := "First", FieldIndex := 0, ColName := "First", ColIndex := 0,
        Format := "", SkipField := false }
      { Name := "Second", FieldIndex := 1, ColName := "First", ColIndex := 0,
        Format := "", SkipField := false }
      "First" (by decide) rfl rfl (by decide) rfl rfl rfl rfl
      (isKeyOrder_keyList _)⟩

/-! ### Claim C5: full-header resolution binds every field (amended: the
emission order is the map-iteration order, not declaration order) -/

/-- C5 (amended): for every record type with N fields and no per-field
overrides, header-mode resolution against a header containing all N field
names (matched case-sensitively) yields exactly one binding per field — each
binding carrying the field's name, its declaration index, and a
`columnIndex` pointing at that name's position in the header row — for any
legal iteration order of the column-name count map.  The bindings are NOT
emitted in declaration order: their order is Go's unspecified map iteration
order (see the counterexample). -/
theorem c5_one_binding_per_field (st : List StructField) (header order : List String)
    (htags : ∀ sf ∈ st, sf.tag = "")
    (hmemh : ∀ sf ∈ st, sf.name ∈ header)
    (hnd : (st.map StructField.name).Nodup)
    (hord : IsKeyOrder (resolveAll (headersMap header) false st 0 0) order) :
    (getFieldInfo st false header order).length = st.length ∧
    (∀ i sf, st.get? i = some sf →
      ∃ b ∈ getFieldInfo st false header order, b.Name = sf.name ∧ b.ColName = sf.name ∧
        b.FieldIndex = i ∧ b.SkipField = false ∧ header.get? b.ColIndex = some sf.name) ∧
    (∀ b ∈ getFieldInfo st false header order,
      ∃ i sf, st.get? i = some sf ∧ b.Name = sf.name ∧ b.FieldIndex = i) := by
  have hall : ∀ sf ∈ st, sf.tag = "" ∧ ∃ ci, headersMap header sf.name = some ci :=
    fun sf hsf => ⟨htags sf hsf, headersMap_isSome_of_mem header sf.name (hmemh sf hsf)⟩
  have hkeys : ∀ c, c ∈ order ↔ c ∈ st.map StructField.name := by
    intro c
    rw [hord.2 c]
    constructor
    · intro hpos
      rcases exists_of_countOf_pos _ c hpos with ⟨p, hp, hpc⟩
      exact hpc ▸ resolveAll_keys_named _ st 0 0 hall p hp
    · intro hc
      rcases List.mem_map.mp hc with ⟨sf, hsf, rfl⟩
      rcases (hall sf hsf).2 with ⟨ci, hci⟩
      rcases List.mem_iff_get?.mp hsf with ⟨k, hk⟩
      apply countOf_pos_of_mem _ _ ((sf.name : String),
        ({ Name := sf.name, FieldIndex := k, ColName := sf.name, ColIndex := ci,
           Format := "", SkipField := false } : fieldInfo))
      · apply (mem_resolveAll_false _ st 0 0 _).mpr
        refine ⟨k, sf, hk, ?_, rfl⟩
        rw [Nat.zero_add]
        exact resolveOne_named _ k 0 sf ci (htags sf hsf) hci
      · rfl
  constructor
  · have hlen1 : (getFieldInfo st false header order).length = order.length := by
      unfold getFieldInfo
      apply length_filterMap_of_forall_some
      intro c hc
      have hpos : 0 < countOf (resolveAll (headersMap header) false st 0 0) c :=
        (hord.2 c).mp hc
      rcases exists_of_countOf_pos _ c hpos with ⟨p, hp, hpc⟩
      have hcname : c ∈ st.map StructField.name :=
        hpc ▸ resolveAll_keys_named _ st 0 0 hall p hp
      rcases List.mem_map.mp hcname with ⟨sf, hsf, hsfn⟩
      have hcnt : countOf (resolveAll (headersMap header) false st 0 0) c = 1 := by
        rw [← hsfn]
        exact countOf_resolveAll_named _ st 0 0 hall hnd sf hsf
      rw [hcnt]
      have hpmem : ((c : String), p.2) ∈ resolveAll (headersMap header) false st 0 0 := by
        have : p = (c, p.2) := by
          rw [Prod.ext_iff]
          exact ⟨hpc, rfl⟩
        rw [← this]
        exact hp
      rw [lastResolved_eq_of_count_one _ c p.2 hcnt hpmem]
      rfl
    have hperm : order.Perm (st.map StructField.name) :=
      (List.perm_ext_iff_of_nodup hord.1 hnd).mpr hkeys
    rw [hlen1, hperm.length_eq, List.length_map]
  constructor
  · intro i sf hi
    have hsf : sf ∈ st := List.get?_mem hi
    rcases (hall sf hsf).2 with ⟨ci, hci⟩
    refine ⟨{ Name := sf.name, FieldIndex := i, ColName := sf.name, ColIndex := ci,
              Format := "", SkipField := false }, ?_, rfl, rfl, rfl, rfl, ?_⟩
    · apply (mem_getFieldInfo st false header order _ hord).mpr
      constructor
      · apply (mem_resolveAll_false _ st 0 0 _).mpr
        refine ⟨i, sf, hi, ?_, rfl⟩
        rw [Nat.zero_add]
        exact resolveOne_named _ i 0 sf ci (htags sf hsf) hci
      · exact countOf_resolveAll_named _ st 0 0 hall hnd sf hsf
    · exact headersMap_get header sf.name ci hci
  · intro b hb
    have hbr := ((mem_getFieldInfo st false header order b hord).mp hb).1
    rcases (mem_resolveAll_false _ st 0 0 (b.ColName, b)).mp hbr with ⟨k, sf, hk, hone, _⟩
    rw [Nat.zero_add] at hone
    have hspec := resolveOne_spec _ _ _ _ _ _ hone
    exact ⟨k, sf, hk, hspec.2, hspec.1⟩

/-- A two-string-field record type with no overrides. -/
def stAB : List StructField :=
  [{ name := "A", tag := "", kind := .str }, { name := "B", tag := "", kind := .str }]

/-- Counterexample for C5 as stated: under the legal map-iteration order
`["B", "A"]` (Go specifies no order at all), resolution of `{A, B}` against
header `A,B` emits the bindings as `[B, A]` — not in the fields' declaration
order. -/
theorem c5_counterexample :
    IsKeyOrder (resolveAll (headersMap ["A", "B"]) false stAB 0 0) ["B", "A"] ∧
    (getFieldInfo stAB false ["A", "B"] ["B", "A"]).map fieldInfo.Name ≠
      stAB.map StructField.name := by
  constructor
  · rw [isKeyOrder_iff]
    refine ⟨by decide, ?_, ?_⟩
    · decide
    · decide
  · decide

/-- Witness for C5 (amended) at the `{A, B}` fixture with header `A,B`. -/
theorem c5_witness :
    ((∀ sf ∈ stAB, sf.tag = "") ∧ (∀ sf ∈ stAB, sf.name ∈ ["A", "B"]) ∧
      (stAB.map StructField.name).Nodup) ∧
    ((getFieldInfo stAB false ["A", "B"]
        (keyList (resolveAll (headersMap ["A", "B"]) false stAB 0 0))).length =
      stAB.length ∧
    (∀ i sf, stAB.get? i = some sf →
      ∃ b ∈ getFieldInfo stAB false ["A", "B"]
          (keyList (resolveAll (headersMap ["A", "B"]) false stAB 0 0)),
        b.Name = sf.name ∧ b.ColName = sf.name ∧ b.FieldIndex = i ∧
          b.SkipField = false ∧ ["A", "B"].get? b.ColIndex = some sf.name) ∧
    (∀ b ∈ getFieldInfo stAB false ["A", "B"]
        (keyList (resolveAll (headersMap ["A", "B"]) false stAB 0 0)),
      ∃ i sf, stAB.get? i = some sf ∧ b.Name = sf.name ∧ b.FieldIndex = i)) :=
  ⟨⟨by decide, by decide, by decide⟩,
    c5_one_binding_per_field stAB ["A", "B"] _ (by decide) (by decide) (by decide)
      (isKeyOrder_keyList _)⟩

/-! ### Claim C6: rows shorter than a binding's column index fail with the
row-shape guard -/

/-- C6: for every binding and every row with fewer columns than the
binding's `columnIndex` requires, once decoding reaches that binding (all
bindings before it having succeeded), it fails with the out-of-range
row-shape error `not enough columns in csv data (row %d)` — which carries
the row's ordinal position — instead of reading past the row's end. -/
theorem c6_row_too_short (st : List StructField) (row : Nat) (record : List String)
    (pre post : List fieldInfo) (fi : fieldInfo) (v v2 : RecordVal)
    (hpre : unmarshalFields st row record pre v = .ok v2)
    (hskip : fi.SkipField = false) (hcn : fi.ColName ≠ "")
    (hlen : record.length ≤ fi.ColIndex) :
    unmarshalFields st row record (pre ++ fi :: post) v =
      .error (.notEnoughColumns row) := by
  rw [unmarshalFields_append, hpre]
  show unmarshalFields st row record (fi :: post) v2 = .error (.notEnoughColumns row)
  rw [unmarshalFields_cons]
  have hstep : unmarshalStep st row record fi v2 = .error (.notEnoughColumns row) := by
    unfold unmarshalStep
    rw [if_neg (by simp [hskip, hcn]), if_pos hlen]
  rw [hstep]

/-- A single-string-field record type. -/
def stF : List StructField := [{ name := "F", tag := "", kind := .str }]

/-- Witness for C6: a binding at column 2 against a one-cell row. -/
theorem c6_witness :
    (unmarshalFields stF 4 ["a"] [] (zeroRecord stF) = .ok (zeroRecord stF) ∧
      (1 : Nat) ≤ 2) ∧
    unmarshalFields stF 4 ["a"]
        ([] ++ ({ Name := "F", FieldIndex := 0, ColName := "F", ColIndex := 2,
                  Format := "", SkipField := false } : fieldInfo) :: []) (zeroRecord stF) =
      .error (.notEnoughColumns 4) :=
  ⟨⟨rfl, by decide⟩,
    c6_row_too_short stF 4 ["a"] [] []
      { Name := "F", FieldIndex := 0, ColName := "F", ColIndex := 2,
        Format := "", SkipField := false }
      (zeroRecord stF) (zeroRecord stF) rfl rfl (by decide) (by decide)⟩

/-! ### Claim C7: a field matching no header column is left unbound, silently
(amended: it is NOT absent from encode output) -/

/-- C7 (amended): in header-based resolution, a field whose column name is
found in neither the header map nor the first-character-lower-cased retry is
left unbound without raising any error — no binding names it and decoding
keeps its zero/default value.  The field is, however, NOT absent from encode
output: the encoder resolves columns from the struct alone and still emits
the field (see the counterexample). -/
theorem c7_unmatched_unbound (st : List StructField) (header order : List String)
    (i : Nat) (sfi : StructField)
    (hnd : (st.map StructField.name).Nodup)
    (hi : st.get? i = some sfi) (htag : sfi.tag = "")
    (hmiss1 : headersMap header sfi.name = none)
    (hmiss2 : headersMap header (lowerFirst sfi.name) = none)
    (hord : IsKeyOrder (resolveAll (headersMap header) false st 0 0) order) :
    (∀ b ∈ getFieldInfo st false header order, b.Name ≠ sfi.name) ∧
    (∀ row record v v2,
      unmarshalFields st row record (getFieldInfo st false header order) v = .ok v2 →
        getF v2 sfi.name = getF v sfi.name) ∧
    sfi.name ∈ encodeHeaders st := by
  have hnone : resolveOne (headersMap header) false i 0 sfi = none := by
    unfold resolveOne
    rw [if_pos htag, hmiss1, hmiss2]
    rfl
  have part1 : ∀ b ∈ getFieldInfo st false header order, b.Name ≠ sfi.name := by
    intro b hb hbn
    have hbr := ((mem_getFieldInfo st false header order b hord).mp hb).1
    rcases (mem_resolveAll_false _ st 0 0 (b.ColName, b)).mp hbr with ⟨k, sf, hk, hone, _⟩
    rw [Nat.zero_add] at hone
    have hspec := resolveOne_spec _ _ _ _ _ _ hone
    have hki : k = i :=
      nodup_names_index st k i sf sfi hnd hk hi (hspec.2.symm.trans hbn)
    subst hki
    rw [hi] at hk
    cases hk
    rw [hnone] at hone
    cases hone
  refine ⟨part1, ?_, ?_⟩
  · intro row record v v2 hok
    exact unmarshalFields_preserve st row record _ v v2 sfi.name hok part1
  · have := encHeaderName_mem_encodeHeaders st i sfi hi (by rw [htag]; decide)
    unfold encHeaderName at this
    rw [if_pos htag] at this
    exact this

/-- Counterexample for C7's "absent from encode output" conjunct: against
header `A` alone, field `B` of `{A, B}` is left unbound on decode, yet the
encoder still emits a `B` column (header `A,B`) and `B`'s value. -/
theorem c7_counterexample :
    (getFieldInfo stAB false ["A"]
        (keyList (resolveAll (headersMap ["A"]) false stAB 0 0))).map fieldInfo.Name =
      ["A"] ∧
    "B" ∈ encodeHeaders stAB ∧ encodeHeaders stAB = ["A", "B"] ∧
    encodeRecord stAB [("A", .vstr "a"), ("B", .vstr "b")] = .ok ["a", "b"] := by
  refine ⟨by decide, by decide, by decide, by decide⟩

/-- Witness for C7 (amended) at the `{A, B}` fixture with header `A` only. -/
theorem c7_witness :
    ((stAB.map StructField.name).Nodup ∧
      stAB.get? 1 = some { name := "B", tag := "", kind := .str } ∧
      headersMap ["A"] "B" = none ∧ headersMap ["A"] (lowerFirst "B") = none) ∧
    ((∀ b ∈ getFieldInfo stAB false ["A"]
        (keyList (resolveAll (headersMap ["A"]) false stAB 0 0)), b.Name ≠ "B") ∧
      (∀ row record v v2,
        unmarshalFields stAB row record
            (getFieldInfo stAB false ["A"]
              (keyList (resolveAll (headersMap ["A"]) false stAB 0 0))) v = .ok v2 →
          getF v2 "B" = getF v "B") ∧
      "B" ∈ encodeHeaders stAB) :=
  ⟨⟨by decide, rfl, by decide, by decide⟩,
    c7_unmatched_unbound stAB ["A"] _ 1 { name := "B", tag := "", kind := .str }
      (by decide) rfl rfl (by decide) (by decide) (isKeyOrder_keyList _)⟩

/-! ### Claim C9: positional (no-header) resolution -/

/-- A field with no tag whose name (and lower-cased name) does not collide
with a value of the first data row resolves positionally: column index
`i - skipCount`, column name the decimal of its declaration index. -/
theorem resolveOne_positional_plain (hm : String → Option Nat) (i sk : Nat)
    (sf : StructField) (htag : sf.tag = "") (hmiss1 : hm sf.name = none)
    (hmiss2 : hm (lowerFirst sf.name) = none) :
    resolveOne hm true i sk sf =
      some { Name := sf.name, FieldIndex := i, ColName := formatInt (i : Int),
             ColIndex := i - sk, Format := "", SkipField := false } := by
  unfold resolveOne
  rw [if_pos htag, hmiss1, hmiss2]
  rfl

/-- A `csvplus:"-"` field is recorded as skipped, with column name `-`. -/
theorem resolveOne_skip (hm : String → Option Nat) (w : Bool) (i sk : Nat)
    (sf : StructField) (htag : sf.tag = "-") :
    resolveOne hm w i sk sf =
      some { Name := sf.name, FieldIndex := i, ColName := "-", ColIndex := 0,
             Format := "", SkipField := true } := by
  unfold resolveOne
  rw [if_neg (by rw [htag]; decide), if_pos htag]

/-- The positional-mode premise: every field is either untagged and free of
accidental matches against the first data row, or skipped. -/
def PositionalPlain (hm : String → Option Nat) (st : List StructField) : Prop :=
  ∀ sf ∈ st, (sf.tag = "" ∧ hm sf.name = none ∧ hm (lowerFirst sf.name) = none) ∨
    sf.tag = "-"

theorem keys_resolveAll_positional (hm : String → Option Nat) (st : List StructField)
    (i0 sk : Nat) (hpos : PositionalPlain hm st) (p : String × fieldInfo)
    (hp : p ∈ resolveAll hm true st i0 sk) :
    p.1 = "-" ∨ ∃ j, j < st.length ∧ p.1 = formatInt ((i0 + j : Nat) : Int) := by
  induction st generalizing i0 sk with
  | nil => cases hp
  | cons sf rest ih =>
    have hrest : PositionalPlain hm rest := fun x hx => hpos x (List.mem_cons_of_mem _ hx)
    have hshift : p ∈ resolveAll hm true rest (i0 + 1)
        (sk + (if sf.tag = "-" then 1 else 0)) →
        p.1 = "-" ∨ ∃ j, j < (sf :: rest).length ∧ p.1 = formatInt ((i0 + j : Nat) : Int) := by
      intro hq
      rcases ih (i0 + 1) _ hrest hq with hdash | ⟨j, hj, hkey⟩
      · exact Or.inl hdash
      · refine Or.inr ⟨j + 1, by simpa using (by omega : j + 1 < rest.length + 1), ?_⟩
        have harith : (i0 + (j + 1) : Nat) = (i0 + 1 + j : Nat) := by omega
        rw [harith]
        exact hkey
    rcases hpos sf (List.mem_cons_self _ _) with ⟨htag, hm1, hm2⟩ | htag
    · rw [resolveAll_cons, resolveOne_positional_plain hm i0 sk sf htag hm1 hm2] at hp
      simp only at hp
      rcases List.mem_cons.mp hp with rfl | hp2
      · exact Or.inr ⟨0, by simp, by rw [Nat.add_zero]⟩
      · exact hshift hp2
    · rw [resolveAll_cons, resolveOne_skip hm true i0 sk sf htag] at hp
      simp only at hp
      rcases List.mem_cons.mp hp with rfl | hp2
      · exact Or.inl rfl
      · exact hshift hp2

/-- The number of skipped fields among the first `i` declared fields. -/
def dashCount (st : List StructField) (i : Nat) : Nat :=
  ((st.take i).filter (fun sf => sf.tag = "-")).length

theorem mem_resolveAll_positional (hm : String → Option Nat) (st : List StructField)
    (i0 sk : Nat) (hpos : PositionalPlain hm st) (i : Nat) (sf : StructField)
    (hi : st.get? i = some sf) (htag : sf.tag = "") :
    ((formatInt ((i0 + i : Nat) : Int)),
      ({ Name := sf.name, FieldIndex := i0 + i, ColName := formatInt ((i0 + i : Nat) : Int),
         ColIndex := (i0 + i) - (sk + dashCount st i), Format := "",
         SkipField := false } : fieldInfo)) ∈ resolveAll hm true st i0 sk := by
  induction st generalizing i0 sk i with
  | nil => cases hi
  | cons sf0 rest ih =>
    have hrest : PositionalPlain hm rest := fun x hx => hpos x (List.mem_cons_of_mem _ hx)
    cases i with
    | zero =>
      cases hi
      rcases hpos sf (List.mem_cons_self _ _) with ⟨_, hm1, hm2⟩ | htag0
      · rw [resolveAll_cons, resolveOne_positional_plain hm i0 sk sf htag hm1 hm2]
        simp only [dashCount, List.take_zero, List.filter_nil, List.length_nil,
          Nat.add_zero]
        exact List.mem_cons_self _ _
      · rw [htag0] at htag
        exact absurd htag (by decide)
    | succ i =>
      have hstep := ih (i0 + 1) (sk + (if sf0.tag = "-" then 1 else 0)) hrest i hi
      have hdc : dashCount (sf0 :: rest) (i + 1) =
          (if sf0.tag = "-" then 1 else 0) + dashCount rest i := by
        unfold dashCount
        rw [List.take_succ_cons, List.filter_cons]
        by_cases hd : sf0.tag = "-"
        · simp [hd]
          omega
        · simp [hd]
      have h2 : (i0 + (i + 1)) - (sk + dashCount (sf0 :: rest) (i + 1)) =
          (i0 + 1 + i) - ((sk + (if sf0.tag = "-" then 1 else 0)) + dashCount rest i) := by
        rw [hdc]
        omega
      have h1 : (i0 + (i + 1) : Nat) = i0 + 1 + i := by omega
      rcases hpos sf0 (List.mem_cons_self _ _) with ⟨htag0, hm1, hm2⟩ | htag0
      · rw [resolveAll_cons, resolveOne_positional_plain hm i0 sk sf0 htag0 hm1 hm2]
        apply List.mem_cons_of_mem
        rw [h2, h1]
        exact hstep
      · rw [resolveAll_cons, resolveOne_skip hm true i0 sk sf0 htag0]
        apply List.mem_cons_of_mem
        rw [h2, h1]
        exact hstep

theorem countOf_resolveAll_positional (hm : String → Option Nat) (st : List StructField)
    (i0 sk : Nat) (hpos : PositionalPlain hm st) (i : Nat) (sf : StructField)
    (hi : st.get? i = some sf) (htag : sf.tag = "") :
    countOf (resolveAll hm true st i0 sk) (formatInt ((i0 + i : Nat) : Int)) = 1 := by
  induction st generalizing i0 sk i with
  | nil => cases hi
  | cons sf0 rest ih =>
    have hrest : PositionalPlain hm rest := fun x hx => hpos x (List.mem_cons_of_mem _ hx)
    have hzero_ne : ∀ j : Nat, countOf (resolveAll hm true rest (i0 + 1)
        (sk + (if sf0.tag = "-" then 1 else 0))) (formatInt ((i0 : Nat) : Int)) = 0 := by
      intro _
      rw [countOf_eq_zero_iff]
      intro p hp hpc
      rcases keys_resolveAll_positional hm rest _ _ hrest p hp with hdash | ⟨j, _, hkey⟩
      · rw [hdash] at hpc
        exact formatInt_nat_ne_skipMark i0 hpc.symm
      · rw [hkey] at hpc
        have := formatInt_nat_injective _ _ hpc
        omega
    rcases hpos sf0 (List.mem_cons_self _ _) with ⟨htag0, hm1, hm2⟩ | htag0
    · rw [resolveAll_cons, resolveOne_positional_plain hm i0 sk sf0 htag0 hm1 hm2]
      simp only
      rw [countOf_cons]
      cases i with
      | zero =>
        simp only [Nat.add_zero]
        rw [if_pos trivial]
        have := hzero_ne 0
        omega
      | succ i =>
        rw [if_neg (fun he => by
          have := formatInt_nat_injective _ _ he
          omega)]
        have := ih (i0 + 1) (sk + (if sf0.tag = "-" then 1 else 0)) hrest i hi
        have harith : (i0 + 1 + i : Nat) = (i0 + (i + 1) : Nat) := by omega
        rw [harith] at this
        omega
    · rw [resolveAll_cons, resolveOne_skip hm true i0 sk sf0 htag0]
      simp only
      rw [countOf_cons]
      cases i with
      | zero =>
        cases hi
        rw [htag0] at htag
        exact absurd htag (by decide)
      | succ i =>
        rw [if_neg (fun he => formatInt_nat_ne_skipMark _ he.symm)]
        have := ih (i0 + 1) (sk + (if sf0.tag = "-" then 1 else 0)) hrest i hi
        have harith : (i0 + 1 + i : Nat) = (i0 + (i + 1) : Nat) := by omega
        rw [harith] at this
        omega

theorem get?_some_lt {A : Type} (l : List A) (i : Nat) (a : A)
    (h : l.get? i = some a) : i < l.length := by
  by_contra hge
  rw [List.get?_eq_none.mpr (by omega)] at h
  cases h

theorem filter_length_partition (l : List StructField) :
    (l.filter (fun sf => sf.tag = "-")).length +
      (l.filter (fun sf => sf.tag ≠ "-")).length = l.length := by
  induction l with
  | nil => rfl
  | cons sf rest ih =>
    rw [List.filter_cons, List.filter_cons]
    by_cases hd : sf.tag = "-"
    · rw [if_pos (by simp [hd]), if_neg (by simp [hd])]
      simp only [List.length_cons]
      omega
    · rw [if_neg (by simp [hd]), if_pos (by simp [hd])]
      simp only [List.length_cons]
      omega

/-- C9 (amended): in positional mode (no header row), every untagged record
field — provided neither its name nor its lower-cased name accidentally
occurs as a value of the first data row, which the source consults as if it
were a header — maps to the column at its declaration-order ordinal among
non-skipped fields, contiguous and gap-free across `csvplus:"-"` fields.
Resolution never fails on a column-count mismatch (the count check is an
explicit TODO in the source); see the counterexample. -/
theorem c9_positional_contiguous (st : List StructField) (rec order : List String)
    (hpos : PositionalPlain (headersMap rec) st)
    (hord : IsKeyOrder (resolveAll (headersMap rec) true st 0 0) order)
    (i : Nat) (sf : StructField) (hi : st.get? i = some sf) (htag : sf.tag = "") :
    ∃ b ∈ getFieldInfo st true rec order,
      b.Name = sf.name ∧ b.FieldIndex = i ∧ b.SkipField = false ∧
      b.ColIndex = ((st.take i).filter (fun x => x.tag ≠ "-")).length := by
  have hmem := mem_resolveAll_positional (headersMap rec) st 0 0 hpos i sf hi htag
  have hcnt := countOf_resolveAll_positional (headersMap rec) st 0 0 hpos i sf hi htag
  simp only [Nat.zero_add] at hmem hcnt
  refine ⟨{ Name := sf.name, FieldIndex := i, ColName := formatInt ((i : Nat) : Int),
            ColIndex := i - dashCount st i, Format := "", SkipField := false },
    ?_, rfl, rfl, rfl, ?_⟩
  · exact (mem_getFieldInfo st true rec order _ hord).mpr ⟨hmem, hcnt⟩
  · have hlt : i < st.length := get?_some_lt st i sf hi
    have htk : (st.take i).length = i := by
      rw [List.length_take]
      omega
    have hpart := filter_length_partition (st.take i)
    show i - dashCount st i = ((st.take i).filter (fun x => x.tag ≠ "-")).length
    unfold dashCount
    omega

/-- Counterexample for C9's shape-check conjunct: positional resolution of
the two-field `{A, B}` record type against a first data row of THREE columns
simply produces the two bindings — no shape-mismatch error exists at
resolution (the source carries a TODO for it) — and decoding such a row
succeeds, silently ignoring the extra column. -/
theorem c9_counterexample :
    (getFieldInfo stAB true ["x", "y", "z"]
        (keyList (resolveAll (headersMap ["x", "y", "z"]) true stAB 0 0))).map
      (fun b => (b.Name, b.ColIndex)) = [("A", 0), ("B", 1)] ∧
    unmarshalRecord stAB 1 ["x", "y", "z"]
        (getFieldInfo stAB true ["x", "y", "z"]
          (keyList (resolveAll (headersMap ["x", "y", "z"]) true stAB 0 0))) =
      .ok [("A", .vstr "x"), ("B", .vstr "y")] :=
  ⟨by decide, by decide⟩

/-- A positional fixture with a skipped middle field. -/
def stPos : List StructField :=
  [{ name := "A", tag := "", kind := .str },
   { name := "S", tag := "-", kind := .str },
   { name := "B", tag := "", kind := .int 64 }]

/-- Witness for C9 (amended): the field after a skipped field maps to the
contiguous column index 1. -/
theorem c9_witness :
    (PositionalPlain (headersMap ["x", "y"]) stPos ∧
      stPos.get? 2 = some { name := "B", tag := "", kind := .int 64 }) ∧
    (∃ b ∈ getFieldInfo stPos true ["x", "y"]
        (keyList (resolveAll (headersMap ["x", "y"]) true stPos 0 0)),
      b.Name = "B" ∧ b.FieldIndex = 2 ∧ b.SkipField = false ∧
      b.ColIndex = ((stPos.take 2).filter (fun x => x.tag ≠ "-")).length) :=
  ⟨⟨by unfold PositionalPlain; decide, rfl⟩,
    c9_positional_contiguous stPos ["x", "y"] _ (by unfold PositionalPlain; decide)
      (isKeyOrder_keyList _) 2
      { name := "B", tag := "", kind := .int 64 } rfl rfl⟩

/-! ### Claim C2: decode/encode round trip machinery -/

/-- The builtin scalar kinds of the round-trip claim (text, integer of a
sane width, unsigned integer, boolean); floats are outside the model. -/
def ScalarOk : FieldKind → Prop
  | .str => True
  | .int w => 1 ≤ w ∧ w ≤ 64
  | .uint w => 1 ≤ w ∧ w ≤ 64
  | .boolean => True
  | _ => False

/-- A value well-typed and in range for its field kind; for unsigned 64-bit
fields the encoder's signed conversion additionally restricts values to
below `2^63`. -/
def ValOk : FieldKind → GoVal → Prop
  | .str, .vstr _ => True
  | .int w, .vint n => -(2 ^ (w - 1)) ≤ n ∧ n < 2 ^ (w - 1)
  | .uint w, .vuint n => n < 2 ^ w ∧ n < 2 ^ 63
  | .boolean, .vbool _ => True
  | _, _ => False

/-- The record value holding `vals` in the fields of `st`. -/
def mkRecord (st : List StructField) (vals : List GoVal) : RecordVal :=
  List.zipWith (fun sf v => (sf.name, v)) st vals

/-- The CSV cells the encoder produces for `vals` under `st`. -/
def cellsOf (st : List StructField) (vals : List GoVal) : List String :=
  List.zipWith (fun sf v => encodeScalar sf.kind v) st vals

/-- The binding list header-based resolution produces for an untagged,
fully-named struct, starting at column `k` (one binding per field, column
index equal to declaration index). -/
def canonFrom : Nat → List StructField → List fieldInfo
  | _, [] => []
  | k, sf :: rest =>
    { Name := sf.name, FieldIndex := k, ColName := sf.name, ColIndex := k,
      Format := "", SkipField := false } :: canonFrom (k + 1) rest

/-- The full canonical binding list. -/
def canonBindings (st : List StructField) : List fieldInfo := canonFrom 0 st

theorem string_mk_ne_empty (l : List Char) (h : l ≠ []) : String.mk l ≠ "" :=
  fun he => h (congrArg String.data he)

theorem getD_append {A : Type} (l1 l2 : List A) (j : Nat) (d : A) :
    (l1 ++ l2).getD (l1.length + j) d = l2.getD j d := by
  induction l1 with
  | nil =>
    rw [List.nil_append, List.length_nil, Nat.zero_add]
  | cons a rest ih =>
    rw [List.cons_append]
    have harith : (a :: rest).length + j = (rest.length + j) + 1 := by
      rw [List.length_cons]
      omega
    rw [harith, List.getD_cons_succ]
    exact ih

theorem scalarDecode_int_ok (row : Nat) (b : fieldInfo) (s : String) (w : Nat) (n : Int)
    (hp : parseInt64 s = .ok n) (hr : ¬(n < -(2 ^ (w - 1)) ∨ 2 ^ (w - 1) ≤ n)) :
    scalarDecode row b s (.int w) = .ok (.vint n) := by
  have h0 : scalarDecode row b s (.int w) =
      match parseInt64 s with
      | .error e =>
        .error (.unmarshal (newUnmarshalError b.ColName b.ColIndex row s
          (errorsWrapf (some e) "strconv.ParseInt")))
      | .ok m =>
        if m < -(2 ^ (w - 1)) ∨ 2 ^ (w - 1) ≤ m then
          .error (.unmarshal (newUnmarshalError b.ColName b.ColIndex row s
            (errorsWrapf none "strconv.ParseInt")))
        else .ok (.vint m) := rfl
  rw [h0, hp]
  show (if n < -(2 ^ (w - 1)) ∨ 2 ^ (w - 1) ≤ n then
      Except.error (DecodeError.unmarshal (newUnmarshalError b.ColName b.ColIndex row s
        (errorsWrapf none "strconv.ParseInt")))
    else Except.ok (GoVal.vint n)) = Except.ok (GoVal.vint n)
  rw [if_neg hr]

theorem scalarDecode_uint_ok (row : Nat) (b : fieldInfo) (s : String) (w : Nat) (n : Nat)
    (hp : parseUint64 s = .ok n) (hr : ¬(2 ^ w ≤ n)) :
    scalarDecode row b s (.uint w) = .ok (.vuint n) := by
  have h0 : scalarDecode row b s (.uint w) =
      match parseUint64 s with
      | .error e =>
        .error (.unmarshal (newUnmarshalError b.ColName b.ColIndex row s
          (errorsWrapf (some e) "strconv.ParseUint")))
      | .ok m =>
        if 2 ^ w ≤ m then
          .error (.unmarshal (newUnmarshalError b.ColName b.ColIndex row s
            (errorsWrapf none "strconv.ParseUint")))
        else .ok (.vuint m) := rfl
  rw [h0, hp]
  show (if 2 ^ w ≤ n then
      Except.error (DecodeError.unmarshal (newUnmarshalError b.ColName b.ColIndex row s
        (errorsWrapf none "strconv.ParseUint")))
    else Except.ok (GoVal.vuint n)) = Except.ok (GoVal.vuint n)
  rw [if_neg hr]

theorem scalarDecode_bool_ok (row : Nat) (b : fieldInfo) (s : String) (b2 : Bool)
    (hp : parseBool s = .ok b2) : scalarDecode row b s .boolean = .ok (.vbool b2) := by
  have h0 : scalarDecode row b s .boolean =
      match parseBool s with
      | .error e =>
        .error (.unmarshal (newUnmarshalError b.ColName b.ColIndex row s
          (errorsWrapf (some e) "strconv.ParseBool")))
      | .ok v => .ok (.vbool v) := rfl
  rw [h0, hp]

theorem encodeFieldE_scalar (sf : StructField) (v : GoVal) (hs : ScalarOk sf.kind) :
    encodeFieldE sf v = .ok (encodeScalar sf.kind v) := by
  cases hk : sf.kind with
  | str =>
    unfold encodeFieldE
    rw [hk]
  | int w =>
    unfold encodeFieldE
    rw [hk]
  | uint w =>
    unfold encodeFieldE
    rw [hk]
  | boolean =>
    unfold encodeFieldE
    rw [hk]
  | hook z dec enc =>
    rw [hk] at hs
    cases hs
  | ptr k2 =>
    rw [hk] at hs
    cases hs

theorem setF_append_head (wpre : RecordVal) (name : String) (w0 val : GoVal)
    (tail : RecordVal) (h : ∀ p ∈ wpre, p.1 ≠ name) :
    setF (wpre ++ (name, w0) :: tail) name val = wpre ++ (name, val) :: tail := by
  induction wpre with
  | nil =>
    rw [List.nil_append, setF_cons]
    rw [if_pos rfl]
    rfl
  | cons p rest ih =>
    rw [List.cons_append, setF_cons, if_neg (h p (List.mem_cons_self _ _)),
      ih (fun q hq => h q (List.mem_cons_of_mem _ hq))]
    rfl

theorem findField_self (st : List StructField) (hnd : (st.map StructField.name).Nodup)
    (sf : StructField) (hsf : sf ∈ st) : findField st sf.name = some sf := by
  induction st with
  | nil => cases hsf
  | cons hd rest ih =>
    unfold findField
    rcases List.mem_cons.mp hsf with rfl | hmem
    · rw [if_pos rfl]
    · have hne : hd.name ≠ sf.name := by
        intro he
        exact (List.nodup_cons.mp hnd).1 (he ▸ List.mem_map.mpr ⟨sf, hmem, rfl⟩)
      rw [if_neg hne]
      exact ih (List.nodup_cons.mp hnd).2 hmem

/-- Round trip of one builtin scalar cell: decoding the encoder's rendering
restores the value, or — only for the empty string cell — skips the write,
in which case the value was the zero value anyway. -/
theorem convertField_encodeScalar (row : Nat) (b : fieldInfo) (k : FieldKind)
    (val : GoVal) (hs : ScalarOk k) (hv : ValOk k val) :
    (convertField row b (encodeScalar k val) k = .ok (some val) ∧
      encodeScalar k val ≠ "") ∨
    (convertField row b (encodeScalar k val) k = .ok none ∧
      encodeScalar k val = "" ∧ val = zeroOf k) := by
  cases k with
  | str =>
    cases val with
    | vstr sv =>
      have hred : ∀ s : String, convertField row b s .str =
          if s = "" then .ok none else (scalarDecode row b s .str).map some :=
        fun s => rfl
      by_cases hsv : sv = ""
      · right
        subst hsv
        exact ⟨rfl, rfl, rfl⟩
      · left
        have hcell : encodeScalar .str (.vstr sv) = sv := rfl
        rw [hcell, hred sv, if_neg hsv]
        exact ⟨rfl, hsv⟩
    | vint n => cases hv
    | vuint n => cases hv
    | vbool b2 => cases hv
    | vnil => cases hv
    | vptr v2 => cases hv
  | int w =>
    cases val with
    | vint n =>
      left
      have hcell : encodeScalar (.int w) (.vint n) = formatInt n := rfl
      have hne : formatInt n ≠ "" := formatInt_ne_empty n
      have hred : ∀ s : String, convertField row b s (.int w) =
          if s = "" then .ok none else (scalarDecode row b s (.int w)).map some :=
        fun s => rfl
      have hw : 1 ≤ w ∧ w ≤ 64 := hs
      have hr : -(2 ^ (w - 1)) ≤ n ∧ n < 2 ^ (w - 1) := hv
      have hpow : (2 : Int) ^ (w - 1) ≤ 2 ^ 63 :=
        pow_le_pow_right (by norm_num) (by omega)
      have hparse : parseInt64 (formatInt n) = .ok n :=
        parseInt64_formatInt n (by omega) (by omega)
      have hsd : scalarDecode row b (formatInt n) (.int w) = .ok (.vint n) :=
        scalarDecode_int_ok row b (formatInt n) w n hparse (by omega)
      rw [hcell, hred, if_neg hne, hsd]
      exact ⟨rfl, hne⟩
    | vstr sv => cases hv
    | vuint n => cases hv
    | vbool b2 => cases hv
    | vnil => cases hv
    | vptr v2 => cases hv
  | uint w =>
    cases val with
    | vuint n =>
      left
      have hcell : encodeScalar (.uint w) (.vuint n) = formatInt (uintAsInt64 n) := rfl
      have hcast : formatInt (uintAsInt64 n) = String.mk (natDigits n) := by
        rw [uintAsInt64_of_lt n hv.2, formatInt_natCast]
      have hne : formatInt (uintAsInt64 n) ≠ "" := by
        rw [hcast]
        exact string_mk_ne_empty _ (natDigits_ne_nil n)
      have hred : ∀ s : String, convertField row b s (.uint w) =
          if s = "" then .ok none else (scalarDecode row b s (.uint w)).map some :=
        fun s => rfl
      have hr : n < 2 ^ w ∧ n < 2 ^ 63 := hv
      have hpow : (2 : Nat) ^ 63 ≤ 2 ^ 64 := Nat.pow_le_pow_right (by omega) (by omega)
      have hparse : parseUint64 (String.mk (natDigits n)) = .ok n :=
        parseUint64_natDigits n (by omega)
      have hsd : scalarDecode row b (formatInt (uintAsInt64 n)) (.uint w) =
          .ok (.vuint n) := by
        rw [hcast]
        exact scalarDecode_uint_ok row b _ w n hparse (by omega)
      rw [hcell, hred, if_neg hne, hsd]
      exact ⟨rfl, hne⟩
    | vstr sv => cases hv
    | vint n => cases hv
    | vbool b2 => cases hv
    | vnil => cases hv
    | vptr v2 => cases hv
  | boolean =>
    cases val with
    | vbool b2 =>
      left
      have hcell : encodeScalar .boolean (.vbool b2) = formatBool b2 := rfl
      have hne : formatBool b2 ≠ "" := by cases b2 <;> decide
      have hred : ∀ s : String, convertField row b s .boolean =
          if s = "" then .ok none else (scalarDecode row b s .boolean).map some :=
        fun s => rfl
      have hsd : scalarDecode row b (formatBool b2) .boolean = .ok (.vbool b2) :=
        scalarDecode_bool_ok row b (formatBool b2) b2 (parseBool_formatBool b2)
      rw [hcell, hred, if_neg hne, hsd]
      exact ⟨rfl, hne⟩
    | vstr sv => cases hv
    | vint n => cases hv
    | vuint n => cases hv
    | vnil => cases hv
    | vptr v2 => cases hv
  | hook z dec enc => cases hs
  | ptr k2 => cases hs

/-- Pointwise well-formedness of a record type and a value list for the
round-trip claim: untagged, non-anonymous, builtin-scalar fields holding
in-range values. -/
def PairedOk : List StructField → List GoVal → Prop
  | [], [] => True
  | sf :: st2, val :: vals2 =>
    (sf.tag = "" ∧ sf.name ≠ "" ∧ ScalarOk sf.kind ∧ ValOk sf.kind val) ∧
      PairedOk st2 vals2
  | _, _ => False

theorem unmarshalStep_active (st : List StructField) (row : Nat) (record : List String)
    (fi : fieldInfo) (v : RecordVal) (hskip : fi.SkipField = false)
    (hcn : fi.ColName ≠ "") (hlen : ¬record.length ≤ fi.ColIndex)
    (sf : StructField) (hff : findField st fi.Name = some sf) :
    unmarshalStep st row record fi v =
      match convertField row fi (record.getD fi.ColIndex "") sf.kind with
      | .error e => .error e
      | .ok none => .ok v
      | .ok (some newV) => .ok (setF v fi.Name newV) := by
  unfold unmarshalStep
  rw [if_neg (by simp [hskip, hcn]), if_neg hlen, hff]

theorem decode_aux (stFull : List StructField) (row : Nat) (rowFull : List String)
    (st2 : List StructField) (vals2 : List GoVal) (hfa : PairedOk st2 vals2)
    (hnd2 : (st2.map StructField.name).Nodup)
    (hfind : ∀ sf ∈ st2, findField stFull sf.name = some sf)
    (cpre : List String) (hrow : rowFull = cpre ++ cellsOf st2 vals2)
    (wpre : RecordVal) (hwnames : ∀ sf ∈ st2, ∀ p ∈ wpre, p.1 ≠ sf.name) :
    unmarshalFields stFull row rowFull (canonFrom cpre.length st2)
      (wpre ++ zeroRecord st2) = .ok (wpre ++ mkRecord st2 vals2) := by
  induction st2 generalizing vals2 cpre wpre with
  | nil =>
    cases vals2 with
    | nil =>
      show Except.ok (wpre ++ zeroRecord []) = Except.ok (wpre ++ mkRecord [] [])
      rfl
    | cons val vals2 => exact absurd hfa (by intro h; exact h)
  | cons sf st2 ih =>
    cases vals2 with
    | nil => exact absurd hfa (by intro h; exact h)
    | cons val vals2 =>
      have hP : sf.tag = "" ∧ sf.name ≠ "" ∧ ScalarOk sf.kind ∧ ValOk sf.kind val :=
        hfa.1
      have hfa2 : PairedOk st2 vals2 := hfa.2
      have hnd2r : (st2.map StructField.name).Nodup := (List.nodup_cons.mp hnd2).2
      have hnotin : sf.name ∉ st2.map StructField.name := (List.nodup_cons.mp hnd2).1
      have hfind2 : ∀ x ∈ st2, findField stFull x.name = some x :=
        fun x hx => hfind x (List.mem_cons_of_mem _ hx)
      have hcellseq : cellsOf (sf :: st2) (val :: vals2) =
          encodeScalar sf.kind val :: cellsOf st2 vals2 := rfl
      have hguard : ¬rowFull.length ≤ cpre.length := by
        rw [hrow, List.length_append, hcellseq, List.length_cons]
        omega
      have hff : findField stFull sf.name = some sf := hfind sf (List.mem_cons_self _ _)
      have hcell : rowFull.getD cpre.length "" = encodeScalar sf.kind val := by
        rw [hrow]
        have h := getD_append cpre (cellsOf (sf :: st2) (val :: vals2)) 0 ""
        rw [Nat.add_zero] at h
        rw [h, hcellseq]
        rfl
      have hstep2 : unmarshalStep stFull row rowFull
          { Name := sf.name, FieldIndex := cpre.length, ColName := sf.name,
            ColIndex := cpre.length, Format := "", SkipField := false }
          (wpre ++ zeroRecord (sf :: st2)) =
          match convertField row
              { Name := sf.name, FieldIndex := cpre.length, ColName := sf.name,
                ColIndex := cpre.length, Format := "", SkipField := false }
              (rowFull.getD cpre.length "") sf.kind with
          | .error e => .error e
          | .ok none => .ok (wpre ++ zeroRecord (sf :: st2))
          | .ok (some newV) =>
            .ok (setF (wpre ++ zeroRecord (sf :: st2)) sf.name newV) :=
        unmarshalStep_active stFull row rowFull _ _ rfl hP.2.1 hguard sf hff
      rw [hcell] at hstep2
      rcases convertField_encodeScalar row
          { Name := sf.name, FieldIndex := cpre.length, ColName := sf.name,
            ColIndex := cpre.length, Format := "", SkipField := false }
          sf.kind val hP.2.2.1 hP.2.2.2 with ⟨hc, _⟩ | ⟨hc, _, hzero⟩
      · rw [hc] at hstep2
        have hstep3 : unmarshalStep stFull row rowFull
            { Name := sf.name, FieldIndex := cpre.length, ColName := sf.name,
              ColIndex := cpre.length, Format := "", SkipField := false }
            (wpre ++ zeroRecord (sf :: st2)) =
            .ok (setF (wpre ++ (sf.name, zeroOf sf.kind) :: zeroRecord st2)
              sf.name val) := hstep2
        rw [setF_append_head wpre sf.name (zeroOf sf.kind) val (zeroRecord st2)
          (fun p hp => hwnames sf (List.mem_cons_self _ _) p hp)] at hstep3
        have hgoal : unmarshalFields stFull row rowFull
            (canonFrom (cpre.length + 1) st2) (wpre ++ (sf.name, val) :: zeroRecord st2) =
            .ok (wpre ++ (sf.name, val) :: mkRecord st2 vals2) := by
          have hih := ih vals2 hfa2 hnd2r hfind2 (cpre ++ [encodeScalar sf.kind val])
            (by rw [hrow, hcellseq, List.append_assoc]
                rfl)
            (wpre ++ [(sf.name, val)])
            (by intro x hx p hp
                rcases List.mem_append.mp hp with hp1 | hp2
                · exact hwnames x (List.mem_cons_of_mem _ hx) p hp1
                · rw [List.mem_singleton.mp hp2]
                  intro he
                  exact hnotin (List.mem_map.mpr ⟨x, hx, he.symm⟩))
          rw [List.length_append, List.length_singleton] at hih
          have hassoc2 : (wpre ++ [(sf.name, val)]) ++ zeroRecord st2 =
              wpre ++ (sf.name, val) :: zeroRecord st2 := by
            rw [List.append_assoc]
            rfl
          have hassoc3 : (wpre ++ [(sf.name, val)]) ++ mkRecord st2 vals2 =
              wpre ++ (sf.name, val) :: mkRecord st2 vals2 := by
            rw [List.append_assoc]
            rfl
          rw [hassoc2, hassoc3] at hih
          exact hih
        show (match unmarshalStep stFull row rowFull
            { Name := sf.name, FieldIndex := cpre.length, ColName := sf.name,
              ColIndex := cpre.length, Format := "", SkipField := false }
            (wpre ++ zeroRecord (sf :: st2)) with
          | .ok v2 => unmarshalFields stFull row rowFull (canonFrom (cpre.length + 1) st2) v2
          | .error e => .error e) = .ok (wpre ++ mkRecord (sf :: st2) (val :: vals2))
        rw [hstep3]
        exact hgoal
      · rw [hc] at hstep2
        have hstep3 : unmarshalStep stFull row rowFull
            { Name := sf.name, FieldIndex := cpre.length, ColName := sf.name,
              ColIndex := cpre.length, Format := "", SkipField := false }
            (wpre ++ zeroRecord (sf :: st2)) =
            .ok (wpre ++ (sf.name, val) :: zeroRecord st2) := by
          rw [hstep2]
          rw [show zeroRecord (sf :: st2) = (sf.name, zeroOf sf.kind) :: zeroRecord st2
            from rfl, ← hzero]
        have hgoal : unmarshalFields stFull row rowFull
            (canonFrom (cpre.length + 1) st2) (wpre ++ (sf.name, val) :: zeroRecord st2) =
            .ok (wpre ++ (sf.name, val) :: mkRecord st2 vals2) := by
          have hih := ih vals2 hfa2 hnd2r hfind2 (cpre ++ [encodeScalar sf.kind val])
            (by rw [hrow, hcellseq, List.append_assoc]
                rfl)
            (wpre ++ [(sf.name, val)])
            (by intro x hx p hp
                rcases List.mem_append.mp hp with hp1 | hp2
                · exact hwnames x (List.mem_cons_of_mem _ hx) p hp1
                · rw [List.mem_singleton.mp hp2]
                  intro he
                  exact hnotin (List.mem_map.mpr ⟨x, hx, he.symm⟩))
          rw [List.length_append, List.length_singleton] at hih
          have hassoc2 : (wpre ++ [(sf.name, val)]) ++ zeroRecord st2 =
              wpre ++ (sf.name, val) :: zeroRecord st2 := by
            rw [List.append_assoc]
            rfl
          have hassoc3 : (wpre ++ [(sf.name, val)]) ++ mkRecord st2 vals2 =
              wpre ++ (sf.name, val) :: mkRecord st2 vals2 := by
            rw [List.append_assoc]
            rfl
          rw [hassoc2, hassoc3] at hih
          exact hih
        show (match unmarshalStep stFull row rowFull
            { Name := sf.name, FieldIndex := cpre.length, ColName := sf.name,
              ColIndex := cpre.length, Format := "", SkipField := false }
            (wpre ++ zeroRecord (sf :: st2)) with
          | .ok v2 => unmarshalFields stFull row rowFull (canonFrom (cpre.length + 1) st2) v2
          | .error e => .error e) = .ok (wpre ++ mkRecord (sf :: st2) (val :: vals2))
        rw [hstep3]
        exact hgoal

theorem mem_enumFrom_snd {A : Type} (l : List A) (i0 : Nat) (p : Nat × A)
    (hp : p ∈ List.enumFrom i0 l) : p.2 ∈ l := by
  induction l generalizing i0 with
  | nil => cases hp
  | cons a rest ih =>
    rcases List.mem_cons.mp hp with rfl | hp2
    · exact List.mem_cons_self _ _
    · exact List.mem_cons_of_mem _ (ih (i0 + 1) hp2)

theorem encRegFields_eq_enum (st : List StructField) (h : ∀ sf ∈ st, sf.tag ≠ "-") :
    encRegFields st = st.enum := by
  unfold encRegFields
  rw [List.filter_eq_self]
  intro p hp
  simpa using h p.2 (mem_enumFrom_snd st 0 p hp)

theorem encodeFieldsList_enumFrom (vFull : RecordVal) (st2 : List StructField)
    (vals2 : List GoVal) (hfa : PairedOk st2 vals2) (vpre : RecordVal)
    (hv : vFull = vpre ++ mkRecord st2 vals2) :
    encodeFieldsList vFull (List.enumFrom vpre.length st2) = .ok (cellsOf st2 vals2) := by
  induction st2 generalizing vals2 vpre with
  | nil =>
    cases vals2 with
    | nil => rfl
    | cons val vals2 => exact absurd hfa (by intro h; exact h)
  | cons sf st2 ih =>
    cases vals2 with
    | nil => exact absurd hfa (by intro h; exact h)
    | cons val vals2 =>
      have hP : sf.tag = "" ∧ sf.name ≠ "" ∧ ScalarOk sf.kind ∧ ValOk sf.kind val :=
        hfa.1
      have hfa2 : PairedOk st2 vals2 := hfa.2
      have hget : vFull.getD vpre.length (("", GoVal.vnil) : String × GoVal) =
          (sf.name, val) := by
        rw [hv]
        have h := getD_append vpre (mkRecord (sf :: st2) (val :: vals2)) 0
          (("", GoVal.vnil) : String × GoVal)
        rw [Nat.add_zero] at h
        rw [h]
        rfl
      show (match encodeFieldE sf (vFull.getD vpre.length ("", GoVal.vnil)).2 with
        | Except.error e => (Except.error e : Except ErrMsg (List String))
        | Except.ok cell =>
          (encodeFieldsList vFull (List.enumFrom (vpre.length + 1) st2)).map
            (fun r => cell :: r)) = Except.ok (cellsOf (sf :: st2) (val :: vals2))
      rw [hget]
      have hE : encodeFieldE sf ((sf.name, val) : String × GoVal).2 =
          .ok (encodeScalar sf.kind val) := encodeFieldE_scalar sf val hP.2.2.1
      rw [hE]
      have hih := ih vals2 hfa2 (vpre ++ [(sf.name, val)])
        (by rw [hv, List.append_assoc]
            rfl)
      rw [List.length_append, List.length_singleton] at hih
      rw [hih]
      rfl

/-- C2 (amended): for record types whose fields are untagged builtin scalars
(text / integer / unsigned integer below `2^63` / boolean; floats are outside
the model), every row in the encoder's image round-trips: decoding the
encoder's output over the canonical header bindings restores exactly the
original record, and re-encoding it reproduces the row.  The claim as
literally stated — `encode(decode(row)) == row` for EVERY decodable row —
is false (see the counterexample: non-canonical numerals such as `"007"`
decode fine but re-encode canonically). -/
theorem c2_encoder_image_roundtrip (st : List StructField) (vals : List GoVal)
    (hfa : PairedOk st vals) (hnd : (st.map StructField.name).Nodup) :
    encodeRecord st (mkRecord st vals) = .ok (cellsOf st vals) ∧
    unmarshalRecord st 1 (cellsOf st vals) (canonBindings st) = .ok (mkRecord st vals) ∧
    (∃ decoded, unmarshalRecord st 1 (cellsOf st vals) (canonBindings st) = .ok decoded ∧
      encodeRecord st decoded = .ok (cellsOf st vals)) := by
  have htags : ∀ sf ∈ st, sf.tag ≠ "-" := by
    intro sf hsf
    have : sf.tag = "" := by
      clear hnd
      induction st generalizing vals with
      | nil => cases hsf
      | cons hd rest ih =>
        cases vals with
        | nil => exact absurd hfa (by intro h; exact h)
        | cons val vals2 =>
          rcases List.mem_cons.mp hsf with rfl | hmem
          · exact hfa.1.1
          · exact ih vals2 hfa.2 hmem
    rw [this]
    decide
  have hencode : encodeRecord st (mkRecord st vals) = .ok (cellsOf st vals) := by
    unfold encodeRecord
    rw [encRegFields_eq_enum st htags]
    have h := encodeFieldsList_enumFrom (mkRecord st vals) st vals hfa []
      (by rw [List.nil_append])
    rw [List.length_nil] at h
    exact h
  have hdecode : unmarshalRecord st 1 (cellsOf st vals) (canonBindings st) =
      .ok (mkRecord st vals) := by
    unfold unmarshalRecord canonBindings
    have h := decode_aux st 1 (cellsOf st vals) st vals hfa hnd
      (fun sf hsf => findField_self st hnd sf hsf) [] (by rw [List.nil_append]) []
      (fun sf _ p hp => absurd hp (List.not_mem_nil p))
    rw [List.length_nil] at h
    rw [List.nil_append, List.nil_append] at h
    exact h
  exact ⟨hencode, hdecode, mkRecord st vals, hdecode, hencode⟩

/-- A one-`int64`-field record type. -/
def stInt : List StructField := [{ name := "A", tag := "", kind := .int 64 }]

/-- Counterexample for C2 as stated: the row `["007"]` decodes successfully
(to the integer 7) for a single-`int64`-field record type, but encoding the
decoded record yields `["7"]`, not the original row. -/
theorem c2_counterexample :
    unmarshalRecord stInt 1 ["007"] (canonBindings stInt) = .ok [("A", .vint 7)] ∧
    encodeRecord stInt [("A", .vint 7)] = .ok ["7"] ∧
    (["7"] : List String) ≠ ["007"] :=
  ⟨by decide, by decide, by decide⟩

/-- A record type with one field of each modelled scalar kind. -/
def stMix : List StructField :=
  [{ name := "S", tag := "", kind := .str },
   { name := "N", tag := "", kind := .int 16 },
   { name := "U", tag := "", kind := .uint 8 },
   { name := "B2", tag := "", kind := .boolean }]

/-- The sample values for the C2 witness. -/
def valsMix : List GoVal := [.vstr "hi", .vint (-5), .vuint 255, .vbool true]

/-- Witness for C2 (amended) at a concrete mixed-scalar record. -/
theorem c2_witness :
    (PairedOk stMix valsMix ∧ (stMix.map StructField.name).Nodup) ∧
    (encodeRecord stMix (mkRecord stMix valsMix) = .ok (cellsOf stMix valsMix) ∧
      unmarshalRecord stMix 1 (cellsOf stMix valsMix) (canonBindings stMix) =
        .ok (mkRecord stMix valsMix) ∧
      (∃ decoded, unmarshalRecord stMix 1 (cellsOf stMix valsMix)
          (canonBindings stMix) = .ok decoded ∧
        encodeRecord stMix decoded = .ok (cellsOf stMix valsMix))) :=
  have hp : PairedOk stMix valsMix :=
    ⟨⟨rfl, by decide, trivial, trivial⟩,
      ⟨rfl, by decide, ⟨by decide, by decide⟩, ⟨by decide, by decide⟩⟩,
      ⟨rfl, by decide, ⟨by decide, by decide⟩, ⟨by decide, by decide⟩⟩,
      ⟨rfl, by decide, trivial, trivial⟩, trivial⟩
  ⟨⟨hp, by decide⟩, c2_encoder_image_roundtrip stMix valsMix hp (by decide)⟩

/-- A record type with the single field `F` of the given kind. -/
def sfOne (k : FieldKind) : List StructField := [{ name := "F", tag := "", kind := k }]

/-- The canonical binding for the single field `F` at column 0. -/
def fiOne : fieldInfo :=
  { Name := "F", FieldIndex := 0, ColName := "F", ColIndex := 0,
    Format := "", SkipField := false }

theorem unmarshalRecord_single (k : FieldKind) (row : Nat) (s : String) :
    unmarshalRecord (sfOne k) row [s] [fiOne] =
      match convertField row fiOne s k with
      | Except.error e => Except.error e
      | Except.ok none => Except.ok [("F", zeroOf k)]
      | Except.ok (some newV) => Except.ok [("F", newV)] := by
  unfold unmarshalRecord
  rw [unmarshalFields_cons]
  rw [unmarshalStep_active (sfOne k) row [s] fiOne (zeroRecord (sfOne k)) rfl
    (by decide) (by show ¬(1 ≤ 0) ; decide) { name := "F", tag := "", kind := k } rfl]
  have hconv : convertField row fiOne ([s].getD fiOne.ColIndex "")
      ({ name := "F", tag := "", kind := k } : StructField).kind =
      convertField row fiOne s k := rfl
  rw [hconv]
  cases hc : convertField row fiOne s k with
  | error e => rfl
  | ok o =>
    cases o with
    | none => rfl
    | some newV => rfl

theorem scalarDecode_uint_overflow (row : Nat) (b : fieldInfo) (s : String) (w : Nat)
    (n : Nat) (hp : parseUint64 s = .ok n) (hr : 2 ^ w ≤ n) :
    scalarDecode row b s (.uint w) =
      .error (.unmarshal (newUnmarshalError b.ColName b.ColIndex row s none)) := by
  have h0 : scalarDecode row b s (.uint w) =
      match parseUint64 s with
      | .error e =>
        .error (.unmarshal (newUnmarshalError b.ColName b.ColIndex row s
          (errorsWrapf (some e) "strconv.ParseUint")))
      | .ok m =>
        if 2 ^ w ≤ m then
          .error (.unmarshal (newUnmarshalError b.ColName b.ColIndex row s
            (errorsWrapf none "strconv.ParseUint")))
        else .ok (.vuint m) := rfl
  rw [h0, hp]
  show (if 2 ^ w ≤ n then
      Except.error (DecodeError.unmarshal (newUnmarshalError b.ColName b.ColIndex row s
        (errorsWrapf none "strconv.ParseUint")))
    else Except.ok (GoVal.vuint n)) = _
  rw [if_pos hr]
  rfl

theorem scalarDecode_int_overflow (row : Nat) (b : fieldInfo) (s : String) (w : Nat)
    (n : Int) (hp : parseInt64 s = .ok n) (hr : n < -(2 ^ (w - 1)) ∨ 2 ^ (w - 1) ≤ n) :
    scalarDecode row b s (.int w) =
      .error (.unmarshal (newUnmarshalError b.ColName b.ColIndex row s none)) := by
  have h0 : scalarDecode row b s (.int w) =
      match parseInt64 s with
      | .error e =>
        .error (.unmarshal (newUnmarshalError b.ColName b.ColIndex row s
          (errorsWrapf (some e) "strconv.ParseInt")))
      | .ok m =>
        if m < -(2 ^ (w - 1)) ∨ 2 ^ (w - 1) ≤ m then
          .error (.unmarshal (newUnmarshalError b.ColName b.ColIndex row s
            (errorsWrapf none "strconv.ParseInt")))
        else .ok (.vint m) := rfl
  rw [h0, hp]
  show (if n < -(2 ^ (w - 1)) ∨ 2 ^ (w - 1) ≤ n then
      Except.error (DecodeError.unmarshal (newUnmarshalError b.ColName b.ColIndex row s
        (errorsWrapf none "strconv.ParseInt")))
    else Except.ok (GoVal.vint n)) = _
  rw [if_pos hr]
  rfl

theorem convertField_scalar_uint (row : Nat) (b : fieldInfo) (s : String) (w : Nat)
    (hs : s ≠ "") :
    convertField row b s (.uint w) = (scalarDecode row b s (.uint w)).map some := by
  have hred : convertField row b s (.uint w) =
      if s = "" then .ok none else (scalarDecode row b s (.uint w)).map some := rfl
  rw [hred, if_neg hs]

theorem convertField_scalar_int (row : Nat) (b : fieldInfo) (s : String) (w : Nat)
    (hs : s ≠ "") :
    convertField row b s (.int w) = (scalarDecode row b s (.int w)).map some := by
  have hred : convertField row b s (.int w) =
      if s = "" then .ok none else (scalarDecode row b s (.int w)).map some := rfl
  rw [hred, if_neg hs]

/-- C3: for a width-`w` unsigned field, a non-empty numeral that parses at 64
bits but whose value reaches `2^w` makes the decode call return a structured
`UnmarhsalError` (the overflow branch), while a value below `2^w` decodes and
is stored exactly; the same parse-then-explicit-overflow-check discipline
holds for signed fields at the `[-2^(w-1), 2^(w-1))` range. -/
theorem c3_overflow_discipline (w : Nat) (s : String) (hne : s ≠ "") :
    (∀ n : Nat, parseUint64 s = .ok n → 2 ^ w ≤ n →
      unmarshalRecord (sfOne (.uint w)) 1 [s] [fiOne] =
        .error (.unmarshal { Column := "F", Row := 1, Value := s, RawErr := none })) ∧
    (∀ n : Nat, parseUint64 s = .ok n → n < 2 ^ w →
      unmarshalRecord (sfOne (.uint w)) 1 [s] [fiOne] = .ok [("F", .vuint n)]) ∧
    (∀ n : Int, parseInt64 s = .ok n → (n < -(2 ^ (w - 1)) ∨ 2 ^ (w - 1) ≤ n) →
      unmarshalRecord (sfOne (.int w)) 1 [s] [fiOne] =
        .error (.unmarshal { Column := "F", Row := 1, Value := s, RawErr := none })) ∧
    (∀ n : Int, parseInt64 s = .ok n → -(2 ^ (w - 1)) ≤ n → n < 2 ^ (w - 1) →
      unmarshalRecord (sfOne (.int w)) 1 [s] [fiOne] = .ok [("F", .vint n)]) := by
  refine ⟨?_, ?_, ?_, ?_⟩
  · intro n hp hr
    rw [unmarshalRecord_single, convertField_scalar_uint 1 fiOne s w hne,
      scalarDecode_uint_overflow 1 fiOne s w n hp hr]
    rfl
  · intro n hp hr
    rw [unmarshalRecord_single, convertField_scalar_uint 1 fiOne s w hne,
      scalarDecode_uint_ok 1 fiOne s w n hp (by omega)]
    rfl
  · intro n hp hr
    rw [unmarshalRecord_single, convertField_scalar_int 1 fiOne s w hne,
      scalarDecode_int_overflow 1 fiOne s w n hp hr]
    rfl
  · intro n hp h1 h2
    rw [unmarshalRecord_single, convertField_scalar_int 1 fiOne s w hne,
      scalarDecode_int_ok 1 fiOne s w n hp (by omega)]
    rfl

/-- Witness for C3 at width 8: `"300"` overflows and `"255"` fits for
`uint8`; `"-300"` overflows and `"-128"` fits for `int8`. -/
theorem c3_witness :
    ("300" : String) ≠ "" ∧
    unmarshalRecord (sfOne (.uint 8)) 1 ["300"] [fiOne] =
      .error (.unmarshal { Column := "F", Row := 1, Value := "300", RawErr := none }) ∧
    unmarshalRecord (sfOne (.uint 8)) 1 ["255"] [fiOne] = .ok [("F", .vuint 255)] ∧
    unmarshalRecord (sfOne (.int 8)) 1 ["-300"] [fiOne] =
      .error (.unmarshal { Column := "F", Row := 1, Value := "-300", RawErr := none }) ∧
    unmarshalRecord (sfOne (.int 8)) 1 ["-128"] [fiOne] = .ok [("F", .vint (-128))] :=
  ⟨by decide,
    (c3_overflow_discipline 8 "300" (by decide)).1 300 (by decide) (by decide),
    (c3_overflow_discipline 8 "255" (by decide)).2.1 255 (by decide) (by decide),
    (c3_overflow_discipline 8 "-300" (by decide)).2.2.1 (-300) (by decide)
      (Or.inl (by decide)),
    (c3_overflow_discipline 8 "-128" (by decide)).2.2.2 (-128) (by decide) (by decide)
      (by decide)⟩

/-- The `YesNoBool.UnmarshalCSV` hook of the repository's `Unmarshaler`
example: `"yes"`/`"no"` become `true`/`false`, anything else is an error. -/
def yesNoDec (s : String) : Except ErrMsg GoVal :=
  if s = "yes" then .ok (.vbool true)
  else if s = "no" then .ok (.vbool false)
  else .error ("unable to convert " ++ s ++ " to bool")

/-- The matching `YesNoBool.MarshalCSV` hook; its value receiver makes the
call through a `*YesNoBool` dereference the pointer. -/
def yesNoEnc : GoVal → Except ErrMsg String
  | .vbool true => .ok "yes"
  | .vbool false => .ok "no"
  | .vptr (.vbool true) => .ok "yes"
  | .vptr (.vbool false) => .ok "no"
  | _ => .error "not a YesNoBool"

/-- The `YesNoBool` field kind. -/
def yesNoKind : FieldKind := .hook (.vbool false) yesNoDec yesNoEnc

/-- The `Item` record type of the repository's `Unmarshaler` example, without
its time-formatted fourth field: `Name string`, `Seen *YesNoBool`,
`Agreed YesNoBool`, tagged `name`, `seen`, `agreed`. -/
def stEx : List StructField :=
  [{ name := "Name", tag := "name", kind := .str },
   { name := "Seen", tag := "seen", kind := .ptr yesNoKind },
   { name := "Agreed", tag := "agreed", kind := yesNoKind }]

/-- The bindings resolution produces for `stEx` under the example's header
`name,seen,agreed` (first-insertion iteration order). -/
def exBindings : List fieldInfo :=
  getFieldInfo stEx false ["name", "seen", "agreed"]
    (keyList (resolveAll (headersMap ["name", "seen", "agreed"]) false stEx 0 0))

/-- C4: refuted as stated — the decoder checks the `Unmarshaler` hook
branches BEFORE the empty-cell skip, so a hook-typed field's empty cell is
not skipped: the raw empty string is passed to the hook.  On the repository's
own `Unmarshaler` example row `Russ,,no` the empty `seen` cell reaches
`YesNoBool.UnmarshalCSV("")`, which rejects it, and the whole decode call
fails — where the example's recorded output `{Russ <nil> false <nil>}`
(and the claim) expect the `Seen` pointer field to be silently left nil.
The conjuncts: the resolved bindings are the expected three; the decode of
`Russ,,no` returns the hook's wrapped error for column `seen`; the hook
branch of the per-field conversion consumed the empty cell (it did not
produce the skip outcome `ok none`, which the same empty cell does produce
for every builtin scalar kind). -/
theorem c4_empty_cell_reaches_hook :
    (exBindings.map (fun b => (b.Name, b.ColName, b.ColIndex)) =
      [("Name", "name", 0), ("Seen", "seen", 1), ("Agreed", "agreed", 2)]) ∧
    unmarshalRecord stEx 2 ["Russ", "", "no"] exBindings =
      .error (.unmarshal
        { Column := "seen", Row := 2, Value := "",
          RawErr := some "Seen.UnmarshalCSV(): unable to convert  to bool" }) ∧
    (convertField 2
        { Name := "Seen", FieldIndex := 1, ColName := "seen",
          ColIndex := 1, Format := "", SkipField := false } "" (.ptr yesNoKind) =
      .error (.unmarshal
        { Column := "seen", Row := 2, Value := "",
          RawErr := some "Seen.UnmarshalCSV(): unable to convert  to bool" })) ∧
    (∀ w : Nat, convertField 2 fiOne "" (.uint w) = .ok none) ∧
    convertField 2 fiOne "" .str = .ok none :=
  ⟨by decide, by decide, by decide, fun w => rfl, rfl⟩

/-- C8: custom conversion hooks take priority over builtin scalar handling
in both directions.  General part: for a hook kind (bare or behind a
pointer), per-field decoding is exactly "pass the raw cell text to the hook
and use its result" (its error wrapped as the field's `UnmarshalCSV` error),
and per-field encoding is exactly the hook's rendering, whatever the value.
Scenario part: on the repository's `Unmarshaler` example type, the cell
`"yes"` decodes through the hook to `true` (though builtin boolean parsing
rejects `"yes"`), the example row `Rob,yes,yes` decodes through the hooks,
and the decoded record encodes back to `Rob,yes,yes` verbatim. -/
theorem c8_hook_priority :
    (∀ (row : Nat) (b : fieldInfo) (s : String) (z : GoVal)
        (dec : String → Except ErrMsg GoVal) (enc : GoVal → Except ErrMsg String),
      convertField row b s (.hook z dec enc) =
        match dec s with
        | .error e => .error (.unmarshal (newUnmarshalError b.ColName b.ColIndex row s
            (errorsWrapf (some e) (b.Name ++ ".UnmarshalCSV()"))))
        | .ok v => .ok (some v)) ∧
    (∀ (row : Nat) (b : fieldInfo) (s : String) (z : GoVal)
        (dec : String → Except ErrMsg GoVal) (enc : GoVal → Except ErrMsg String),
      convertField row b s (.ptr (.hook z dec enc)) =
        match dec s with
        | .error e => .error (.unmarshal (newUnmarshalError b.ColName b.ColIndex row s
            (errorsWrapf (some e) (b.Name ++ ".UnmarshalCSV()"))))
        | .ok v => .ok (some (.vptr v))) ∧
    (∀ (n t : String) (z : GoVal) (dec : String → Except ErrMsg GoVal)
        (enc : GoVal → Except ErrMsg String) (v : GoVal),
      encodeFieldE { name := n, tag := t, kind := .hook z dec enc } v = enc v) ∧
    (∀ (n t : String) (z : GoVal) (dec : String → Except ErrMsg GoVal)
        (enc : GoVal → Except ErrMsg String) (v : GoVal),
      encodeFieldE { name := n, tag := t, kind := .ptr (.hook z dec enc) } v = enc v) ∧
    (parseBool "yes" =
        .error ("strconv.ParseBool: parsing " ++ "yes" ++ ": invalid syntax") ∧
      convertField 1
          { Name := "Seen", FieldIndex := 1, ColName := "seen",
            ColIndex := 1, Format := "", SkipField := false } "yes" (.ptr yesNoKind) =
        .ok (some (.vptr (.vbool true)))) ∧
    unmarshalRecord stEx 1 ["Rob", "yes", "yes"] exBindings =
      .ok [("Name", .vstr "Rob"), ("Seen", .vptr (.vbool true)),
        ("Agreed", .vbool true)] ∧
    encodeRecord stEx
        [("Name", .vstr "Rob"), ("Seen", .vptr (.vbool true)),
          ("Agreed", .vbool true)] =
      .ok ["Rob", "yes", "yes"] :=
  ⟨fun row b s z dec enc => rfl, fun row b s z dec enc => rfl,
    fun n t z dec enc v => rfl, fun n t z dec enc v => rfl,
    ⟨by decide, by decide⟩, by decide, by decide⟩

/-- C10: on an integer cell that parses at 64 bits but overflows the target
width (here `"300"` into `uint8`), the decoder returns an `UnmarhsalError`
whose `RawErr` is nil: the overflow branch wraps the successful parse's nil
error, and `errors.Wrapf(nil, ...)` is nil.  `UnmarhsalError.Error()`
dereferences `RawErr`, so on this error it panics instead of producing a
message — modelled by `errorText` being `none` exactly there, where the same
call on a parse failure's error (e.g. the unparseable cell `"abc"`) does
produce a message. -/
theorem c10_overflow_rawerr_nil :
    parseUint64 "300" = .ok 300 ∧
    unmarshalRecord (sfOne (.uint 8)) 1 ["300"] [fiOne] =
      .error (.unmarshal { Column := "F", Row := 1, Value := "300", RawErr := none }) ∧
    errorsWrapf none "strconv.ParseUint" = none ∧
    UnmarhsalError.errorText
        { Column := "F", Row := 1, Value := "300", RawErr := none } = none ∧
    (∃ e, unmarshalRecord (sfOne (.uint 8)) 1 ["abc"] [fiOne] =
        .error (.unmarshal e) ∧ e.RawErr.isSome = true ∧
        e.errorText.isSome = true) :=
  ⟨by decide, by decide, rfl, rfl,
    ⟨{ Column := "F", Row := 1, Value := "abc",
        RawErr := some
          "strconv.ParseUint: strconv.ParseUint: parsing abc: invalid syntax" },
      by decide, rfl, rfl⟩⟩

end Csvplus
